import Mathlib

set_option maxRecDepth 200000

/-!
Verification development for the SurFit V1 core: the hash-chained execution
ledger (logger.py), the policy engine (policy.py) and the SAW graph walker
(engine.py), shallowly embedded in Lean 4.

Modelling conventions:
  - SQLite tables are lists of row structures; the auto-increment id is an
    explicit counter on the database state.
  - Python floats that the source restricts to two decimal places
    (latency_ms values, which the engine rounds to 2 decimals) are modelled
    as integers counting hundredths, and their Python repr rendering is
    reproduced on that domain.
  - SHA-256 is implemented in full (FIPS 180-4) over natural numbers reduced
    modulo 2 to the 32, so every hash in a theorem is a genuinely computed
    digest.
  - Wall-clock readings and timestamps are oracle inputs: the engine model
    consumes explicit streams of timestamps and measured latencies.
-/

/- ───────────────────────── bytes, hex, UTF-8 ───────────────────────── -/

/-- Lowercase hex digit for a value below 16, as CPython produces in
`hashlib.sha256(...).hexdigest()`. -/
def hexChar (n : Nat) : Char :=
  if n < 10 then Char.ofNat (48 + n) else Char.ofNat (87 + n)

/-- Two lowercase hex characters for one byte. -/
def byteHex (b : Nat) : String :=
  String.mk [hexChar (b / 16 % 16), hexChar (b % 16)]

/-- UTF-8 encoding of one Unicode code point, as `str.encode("utf-8")`. -/
def utf8Char (n : Nat) : List Nat :=
  if n < 128 then [n]
  else if n < 2048 then [192 + n / 64, 128 + n % 64]
  else if n < 65536 then [224 + n / 4096, 128 + n / 64 % 64, 128 + n % 64]
  else [240 + n / 262144, 128 + n / 4096 % 64, 128 + n / 64 % 64, 128 + n % 64]

/-- UTF-8 bytes of a string. -/
def utf8Encode (s : String) : List Nat :=
  s.data.flatMap (fun c => utf8Char c.toNat)

/- ───────────────────────────── SHA-256 ─────────────────────────────── -/

/-- 2 to the 32, the word modulus of SHA-256. -/
def w32 : Nat := 4294967296

/-- Right rotation of a 32-bit word. -/
def rotr32 (x n : Nat) : Nat :=
  ((x >>> n) ||| (x <<< (32 - n))) % w32

/-- FIPS 180-4 big sigma 0. -/
def bSig0 (x : Nat) : Nat := rotr32 x 2 ^^^ rotr32 x 13 ^^^ rotr32 x 22

/-- FIPS 180-4 big sigma 1. -/
def bSig1 (x : Nat) : Nat := rotr32 x 6 ^^^ rotr32 x 11 ^^^ rotr32 x 25

/-- FIPS 180-4 small sigma 0. -/
def sSig0 (x : Nat) : Nat := rotr32 x 7 ^^^ rotr32 x 18 ^^^ (x >>> 3)

/-- FIPS 180-4 small sigma 1. -/
def sSig1 (x : Nat) : Nat := rotr32 x 17 ^^^ rotr32 x 19 ^^^ (x >>> 10)

/-- FIPS 180-4 choice function; complement taken inside 32 bits. -/
def chF (x y z : Nat) : Nat := (x &&& y) ^^^ ((x ^^^ (w32 - 1)) &&& z)

/-- FIPS 180-4 majority function. -/
def majF (x y z : Nat) : Nat := (x &&& y) ^^^ (x &&& z) ^^^ (y &&& z)

/-- The 64 SHA-256 round constants. -/
def shaK : List Nat :=
  [1116352408, 1899447441, 3049323471, 3921009573, 961987163, 1508970993,
   2453635748, 2870763221, 3624381080, 310598401, 607225278, 1426881987,
   1925078388, 2162078206, 2614888103, 3248222580, 3835390401, 4022224774,
   264347078, 604807628, 770255983, 1249150122, 1555081692, 1996064986,
   2554220882, 2821834349, 2952996808, 3210313671, 3336571891, 3584528711,
   113926993, 338241895, 666307205, 773529912, 1294757372, 1396182291,
   1695183700, 1986661051, 2177026350, 2456956037, 2730485921, 2820302411,
   3259730800, 3345764771, 3516065817, 3600352804, 4094571909, 275423344,
   430227734, 506948616, 659060556, 883997877, 958139571, 1322822218,
   1537002063, 1747873779, 1955562222, 2024104815, 2227730452, 2361852424,
   2428436474, 2756734187, 3204031479, 3329325298]

/-- Intermediate SHA-256 hash state: eight 32-bit working words. -/
structure ShaState where
  a : Nat
  b : Nat
  c : Nat
  d : Nat
  e : Nat
  f : Nat
  g : Nat
  h : Nat
deriving Repr, DecidableEq

/-- The SHA-256 initial hash value. -/
def shaInit : ShaState :=
  ⟨1779033703, 3144134277, 1013904242, 2773480762,
   1359893119, 2600822924, 528734635, 1541459225⟩

/-- Big-endian packing of bytes into 32-bit words. -/
def bytesToWords : List Nat → List Nat
  | b0 :: b1 :: b2 :: b3 :: rest =>
      (((b0 * 256 + b1) * 256 + b2) * 256 + b3) :: bytesToWords rest
  | _ => []

/-- Extend the 16 block words to the full 64-entry message schedule by
appending `n` more words. -/
def extendSchedule : Nat → List Nat → List Nat
  | 0, w => w
  | n + 1, w =>
      let i := w.length
      let nw := (sSig1 (w.getD (i - 2) 0) + w.getD (i - 7) 0 +
                 sSig0 (w.getD (i - 15) 0) + w.getD (i - 16) 0) % w32
      extendSchedule n (w ++ [nw])

/-- One SHA-256 round, consuming a constant-schedule pair. -/
def shaRound (st : ShaState) (kw : Nat × Nat) : ShaState :=
  let t1 := (st.h + bSig1 st.e + chF st.e st.f st.g + kw.1 + kw.2) % w32
  let t2 := (bSig0 st.a + majF st.a st.b st.c) % w32
  ⟨(t1 + t2) % w32, st.a, st.b, st.c, (st.d + t1) % w32, st.e, st.f, st.g⟩

/-- Compress one 64-byte block into the chaining state. -/
def shaBlock (st : ShaState) (block : List Nat) : ShaState :=
  let w := extendSchedule 48 (bytesToWords block)
  let r := (shaK.zip w).foldl shaRound st
  ⟨(st.a + r.a) % w32, (st.b + r.b) % w32, (st.c + r.c) % w32,
   (st.d + r.d) % w32, (st.e + r.e) % w32, (st.f + r.f) % w32,
   (st.g + r.g) % w32, (st.h + r.h) % w32⟩

/-- Split a byte list into 64-byte blocks; the first argument is structural
fuel, instantiated with the list length so it never runs out. -/
def toBlocksAux : Nat → List Nat → List (List Nat)
  | 0, _ => []
  | _, [] => []
  | n + 1, bs => bs.take 64 :: toBlocksAux n (bs.drop 64)

/-- Split a byte list into 64-byte blocks. -/
def toBlocks (bs : List Nat) : List (List Nat) :=
  toBlocksAux bs.length bs

/-- Eight big-endian bytes of a 64-bit length field. -/
def be64 (n : Nat) : List Nat :=
  [n / 72057594037927936 % 256, n / 281474976710656 % 256,
   n / 1099511627776 % 256, n / 4294967296 % 256,
   n / 16777216 % 256, n / 65536 % 256, n / 256 % 256, n % 256]

/-- SHA-256 message padding: a 1-bit, zeros to 56 mod 64, then the bit length. -/
def shaPad (bs : List Nat) : List Nat :=
  bs ++ [128] ++ List.replicate ((119 - bs.length % 64) % 64) 0 ++ be64 (bs.length * 8)

/-- Four big-endian bytes of one 32-bit word. -/
def wordBytes (n : Nat) : List Nat :=
  [n / 16777216 % 256, n / 65536 % 256, n / 256 % 256, n % 256]

/-- Lowercase hex of one 32-bit word, eight characters. -/
def wordHex (n : Nat) : String :=
  byteHex (n / 16777216 % 256) ++ byteHex (n / 65536 % 256) ++
  byteHex (n / 256 % 256) ++ byteHex (n % 256)

/-- The full lowercase hex digest of a final SHA-256 state. -/
def stateHex (st : ShaState) : String :=
  wordHex st.a ++ wordHex st.b ++ wordHex st.c ++ wordHex st.d ++
  wordHex st.e ++ wordHex st.f ++ wordHex st.g ++ wordHex st.h

/-- SHA-256 of a byte list, as the final state. -/
def sha256Run (bs : List Nat) : ShaState :=
  (toBlocks (shaPad bs)).foldl shaBlock shaInit

/-- Model of logger.sha256_hex: lowercase hex SHA-256 digest of the UTF-8
encoding of a string. -/
def sha256_hex (value : String) : String :=
  stateHex (sha256Run (utf8Encode value))

/- ──────────────────── canonical JSON (logger.canonical_json) ─────────────── -/

/-- Four lowercase hex digits, as in a Python `\uXXXX` escape. -/
def u16Hex (n : Nat) : String :=
  String.mk [hexChar (n / 4096 % 16), hexChar (n / 256 % 16),
             hexChar (n / 16 % 16), hexChar (n % 16)]

/-- The escaping `json.dumps` applies to one character of a string value
(default `ensure_ascii=True`): quote and backslash escaped, the five short
escapes, `\uXXXX` for every other character outside printable ASCII, with
surrogate pairs beyond the BMP. -/
def jsonEscapeChar (c : Char) : String :=
  let n := c.toNat
  if n = 34 then "\\\""
  else if n = 92 then "\\\\"
  else if n = 8 then "\\b"
  else if n = 9 then "\\t"
  else if n = 10 then "\\n"
  else if n = 12 then "\\f"
  else if n = 13 then "\\r"
  else if 32 ≤ n ∧ n ≤ 126 then String.mk [c]
  else if n ≤ 65535 then "\\u" ++ u16Hex n
  else "\\u" ++ u16Hex (55296 + (n - 65536) / 1024) ++
       "\\u" ++ u16Hex (56320 + (n - 65536) % 1024)

/-- A JSON string literal for `s`, as `json.dumps` renders it. -/
def jsonStr (s : String) : String :=
  "\"" ++ String.join (s.data.map jsonEscapeChar) ++ "\""

/-- Python `repr` of a non-negative float that is an exact multiple of 0.01,
given as a count of hundredths: integer part, a dot, then the fractional
digits with a trailing zero dropped but at least one digit kept.  CPython
shortest-repr prints exactly this for such values. -/
def dec2ReprNat (n : Nat) : String :=
  let fr := n % 100
  toString (n / 100) ++ "." ++
    (if fr % 10 = 0 then toString (fr / 10)
     else if fr < 10 then "0" ++ toString fr
     else toString fr)

/-- Python `repr` of a float multiple of 0.01 given in hundredths, signed. -/
def dec2Repr (c : Int) : String :=
  if c < 0 then "-" ++ dec2ReprNat (-c).toNat else dec2ReprNat c.toNat

/-- Model of the `canonical_json` call made by `write_log` and
`verify_run_integrity`: `json.dumps(payload, sort_keys=True,
separators=(",", ":"))` for the fixed seven-key payload.  Key order is the
ascending sort `decision, error, latency_ms, node_id, run_id, timestamp,
tool_name`; `latency_ms` is serialized through `float(...)` so it always
carries a decimal point. -/
def canonical_event_json (run_id node_id tool_name decision : String)
    (latency_ms : Int) (error timestamp : String) : String :=
  "\x7b\"decision\":" ++ jsonStr decision ++
  ",\"error\":" ++ jsonStr error ++
  ",\"latency_ms\":" ++ dec2Repr latency_ms ++
  ",\"node_id\":" ++ jsonStr node_id ++
  ",\"run_id\":" ++ jsonStr run_id ++
  ",\"timestamp\":" ++ jsonStr timestamp ++
  ",\"tool_name\":" ++ jsonStr tool_name ++ "\x7d"

/- ─────────────────────────── ledger data model ───────────────────────────── -/

/-- Model of models.LogEntry: the argument `write_log` receives.  `latency_ms`
counts hundredths of a millisecond; `error` is `None`-able. -/
structure LogEntry where
  timestamp_iso : String
  run_id : String
  saw_id : String
  node_id : String
  tool_name : String
  decision : String
  latency_ms : Int
  error : Option String
deriving Repr, DecidableEq

/-- One row of the `execution_log` table, including the auto-increment `id`
and the stored chain fields. -/
structure LogRow where
  id : Nat
  timestamp_iso : String
  run_id : String
  saw_id : String
  node_id : String
  tool_name : String
  decision : String
  latency_ms : Int
  prev_hash : String
  event_hash : String
  error : Option String
deriving Repr, DecidableEq

/-- One row of the `runs` table. -/
structure RunRecord where
  run_id : String
  saw_id : String
  started_at : String
  status : String
  policy_hash : Option String
  policy_version : Option String
  policy_snapshot : Option String
  approved_by : Option String
  approved_at : Option String
  approval_note : Option String
deriving Repr, DecidableEq

/-- The SQLite database state: the `execution_log` rows in insertion order
with the next auto-increment id, and the `runs` table. -/
structure Db where
  rows : List LogRow
  nextId : Nat
  runs : List RunRecord
deriving Repr, DecidableEq

/-- A fresh database. -/
def emptyDb : Db := ⟨[], 1, []⟩

/-- `WHERE run_id = ?` on the execution log. -/
def filterRun (rows : List LogRow) (r : String) : List LogRow :=
  rows.filter (fun row => row.run_id = r)

/-- Lexicographic strict order on character lists by code point.  SQLite
compares TEXT columns by byte order, which on UTF-8 agrees with code-point
order. -/
def charListLt : List Char → List Char → Bool
  | [], [] => false
  | [], _ :: _ => true
  | _ :: _, [] => false
  | a :: as, b :: bs =>
      if a.toNat < b.toNat then true
      else if b.toNat < a.toNat then false
      else charListLt as bs

/-- Strict string order by code point. -/
def strLt (a b : String) : Bool := charListLt a.data b.data

/-- Non-strict string order by code point. -/
def strLe (a b : String) : Bool := !charListLt b.data a.data

/-- The `(timestamp_iso, id)` ordering used by both the latest-row lookup
(descending) and the verifier (ascending). -/
def keyLE (a b : LogRow) : Prop :=
  strLt a.timestamp_iso b.timestamp_iso = true ∨
    (a.timestamp_iso = b.timestamp_iso ∧ a.id ≤ b.id)

instance (a b : LogRow) : Decidable (keyLE a b) := by
  unfold keyLE; infer_instance

/-- Keep the larger of a candidate row and the maximum seen so far. -/
def latestChoose (row : LogRow) : Option LogRow → Option LogRow
  | none => some row
  | some m => if keyLE row m then some m else some row

/-- The row `SELECT ... ORDER BY timestamp_iso DESC, id DESC LIMIT 1`
returns: the maximum for `keyLE`. -/
def latestRow : List LogRow → Option LogRow
  | [] => none
  | row :: rest => latestChoose row (latestRow rest)

/-- Insert a row into a list sorted by `keyLE`. -/
def insertSorted (x : LogRow) : List LogRow → List LogRow
  | [] => [x]
  | y :: ys => if keyLE x y then x :: y :: ys else y :: insertSorted x ys

/-- `ORDER BY timestamp_iso, id` (rows in our theorems always have distinct
keys, so any comparison sort returns the same list). -/
def sortRows : List LogRow → List LogRow
  | [] => []
  | x :: xs => insertSorted x (sortRows xs)

/-- The canonical payload of a stored row, exactly as `verify_run_integrity`
rebuilds it: `error or ""` and `float(latency_ms)`. -/
def canonicalRow (row : LogRow) : String :=
  canonical_event_json row.run_id row.node_id row.tool_name row.decision
    row.latency_ms (row.error.getD "") row.timestamp_iso

/-- The canonical payload of an incoming entry, exactly as `write_log`
builds it. -/
def canonicalEntry (e : LogEntry) : String :=
  canonical_event_json e.run_id e.node_id e.tool_name e.decision
    e.latency_ms (e.error.getD "") e.timestamp_iso

/-- The `prev_hash` value `write_log` computes for a run: the latest stored
`event_hash`, with both a missing row and an empty stored hash falling back
to the literal `GENESIS` (the Python source tests `prev_row and prev_row[0]`,
so an empty string is falsy). -/
def prevHashFor (db : Db) (r : String) : String :=
  match latestRow (filterRun db.rows r) with
  | some row => if row.event_hash = "" then "GENESIS" else row.event_hash
  | none => "GENESIS"

/-- Model of logger.write_log: read the latest `event_hash` for the run
(an empty or missing hash falls back to the literal `GENESIS`), hash the
chained canonical payload, and insert the row. -/
def write_log (db : Db) (e : LogEntry) : Db :=
  let prev_hash := prevHashFor db e.run_id
  let event_hash := sha256_hex (prev_hash ++ canonicalEntry e)
  { db with
      rows := db.rows ++ [⟨db.nextId, e.timestamp_iso, e.run_id, e.saw_id,
        e.node_id, e.tool_name, e.decision, e.latency_ms, prev_hash,
        event_hash, e.error⟩],
      nextId := db.nextId + 1 }

/-- `write_log` over a list of entries, in order. -/
def writeLogs (db : Db) : List LogEntry → Db
  | [] => db
  | e :: es => writeLogs (write_log db e) es

/-- Model of logger.upsert_run_start: `INSERT ... ON CONFLICT(run_id) DO
UPDATE` on the `runs` table (approval fields untouched on conflict). -/
def upsert_run_start (db : Db) (run_id saw_id started_at status : String)
    (policy_hash policy_version policy_snapshot : String) : Db :=
  if db.runs.any (fun rec => rec.run_id = run_id) then
    { db with runs := db.runs.map (fun rec =>
        if rec.run_id = run_id then
          { rec with
            saw_id := saw_id,
            started_at := started_at,
            status := status,
            policy_hash := some policy_hash,
            policy_version := some policy_version,
            policy_snapshot := some policy_snapshot }
        else rec) }
  else
    { db with runs := db.runs ++ [⟨run_id, saw_id, started_at, status,
        some policy_hash, some policy_version, some policy_snapshot,
        none, none, none⟩] }

/-- The result record of `verify_run_integrity`. -/
structure VerifyResult where
  valid : Bool
  first_mismatch_index : Option Nat
  expected_hash : Option String
  found_hash : Option String
deriving Repr, DecidableEq

/-- The verifier loop: re-walk the chain from `prev`, recomputing each
expected event hash; halt at the first row whose stored `prev_hash` or
`event_hash` disagrees. -/
def verifyWalk (prev : String) (idx : Nat) : List LogRow → VerifyResult
  | [] => ⟨true, none, none, none⟩
  | row :: rest =>
      let expected := sha256_hex (prev ++ canonicalRow row)
      if row.prev_hash ≠ prev ∨ row.event_hash ≠ expected then
        ⟨false, some idx, some expected, some row.event_hash⟩
      else
        verifyWalk row.event_hash (idx + 1) rest

/-- Model of logger.verify_run_integrity: select the run ordered by
`(timestamp_iso, id)` and walk the chain from `GENESIS`.  An empty selection
is valid, as in the source. -/
def verify_run_integrity (db : Db) (r : String) : VerifyResult :=
  verifyWalk "GENESIS" 0 (sortRows (filterRun db.rows r))

/-- The effect on one row of `UPDATE execution_log SET latency_ms =
latency_ms + delta WHERE id = target`. -/
def tamperLatencyRow (target : Nat) (delta : Int) (row : LogRow) : LogRow :=
  if row.id = target then { row with latency_ms := row.latency_ms + delta }
  else row

/-- The `UPDATE execution_log SET latency_ms = latency_ms + delta WHERE
id = target` mutation of the tamper scenario. -/
def tamperLatency (db : Db) (target : Nat) (delta : Int) : Db :=
  { db with rows := db.rows.map (tamperLatencyRow target delta) }

/-- Mutating the stored `saw_id` of one row, a column the verifier never
reads. -/
def tamperSawId (db : Db) (target : Nat) (newSaw : String) : Db :=
  { db with rows := db.rows.map (fun row =>
      if row.id = target then { row with saw_id := newSaw } else row) }

/- ─────────────────── chain predicates for the claims ─────────────────── -/

/-- `chainFrom h l`: the rows `l`, in order, form a hash chain anchored at
`h` — each row stores `h` (resp. the previous event hash) as `prev_hash`,
and its `event_hash` is the SHA-256 of `prev_hash` concatenated with its
canonical payload. -/
def chainFrom (h : String) : List LogRow → Prop
  | [] => True
  | row :: rest =>
      row.prev_hash = h ∧
      row.event_hash = sha256_hex (h ++ canonicalRow row) ∧
      chainFrom row.event_hash rest

instance (h : String) (l : List LogRow) : Decidable (chainFrom h l) := by
  induction l generalizing h with
  | nil => exact isTrue trivial
  | cons row rest ih =>
      have h2 : Decidable (chainFrom row.event_hash rest) := ih _
      show Decidable (row.prev_hash = h ∧
        row.event_hash = sha256_hex (h ++ canonicalRow row) ∧
        chainFrom row.event_hash rest)
      exact inferInstance

/-- The event hash a chain anchored at `h` ends with. -/
def endHash (h : String) : List LogRow → String
  | [] => h
  | row :: rest => endHash row.event_hash rest

/-- The monotone-timestamp side condition on a batch of appends: every entry
of the batch that belongs to run `r` carries a `timestamp_iso` at least
`bound` and at least every earlier batch entry for `r`. -/
def tsMono (r : String) (bound : String) : List LogEntry → Bool
  | [] => true
  | e :: es =>
      if e.run_id = r then
        strLe bound e.timestamp_iso && tsMono r e.timestamp_iso es
      else tsMono r bound es

/- ─────────────────── ordering and chain lemmas ─────────────────── -/

theorem charListLt_trans : ∀ {a b c : List Char}, charListLt a b = true →
    charListLt b c = true → charListLt a c = true
  | [], _ :: _, _ :: _, _, _ => rfl
  | [], [], _, h1, _ => by simp [charListLt] at h1
  | [], _ :: _, [], _, h2 => by simp [charListLt] at h2
  | _ :: _, [], _, h1, _ => by simp [charListLt] at h1
  | _ :: _, _ :: _, [], _, h2 => by simp [charListLt] at h2
  | a :: as, b :: bs, c :: cs, h1, h2 => by
      simp only [charListLt] at h1 h2 ⊢
      rcases Nat.lt_trichotomy a.toNat b.toNat with hab | hab | hab
      · rcases Nat.lt_trichotomy b.toNat c.toNat with hbc | hbc | hbc
        · rw [if_pos (by omega)]
        · rw [if_pos (by omega)]
        · rw [if_neg (by omega), if_pos (by omega)] at h2
          simp at h2
      · rcases Nat.lt_trichotomy b.toNat c.toNat with hbc | hbc | hbc
        · rw [if_pos (by omega)]
        · rw [if_neg (by omega), if_neg (by omega)]
          rw [if_neg (by omega), if_neg (by omega)] at h1
          rw [if_neg (by omega), if_neg (by omega)] at h2
          exact charListLt_trans h1 h2
        · rw [if_neg (by omega), if_pos (by omega)] at h2
          simp at h2
      · rw [if_neg (by omega), if_pos (by omega)] at h1
        simp at h1

theorem charListLt_antisymm : ∀ {a b : List Char}, charListLt a b = false →
    charListLt b a = false → a = b
  | [], [], _, _ => rfl
  | [], _ :: _, h1, _ => by simp [charListLt] at h1
  | _ :: _, [], _, h2 => by simp [charListLt] at h2
  | a :: as, b :: bs, h1, h2 => by
      simp only [charListLt] at h1 h2
      rcases Nat.lt_trichotomy a.toNat b.toNat with hab | hab | hab
      · rw [if_pos hab] at h1
        exact absurd h1 (by simp)
      · rw [hab] at h1 h2
        rw [if_neg (Nat.lt_irrefl _), if_neg (Nat.lt_irrefl _)] at h1 h2
        have heq : a = b := by
          have h3 : Char.ofNat a.toNat = Char.ofNat b.toNat := by rw [hab]
          rwa [Char.ofNat_toNat, Char.ofNat_toNat] at h3
        rw [heq, charListLt_antisymm h1 h2]
      · rw [if_pos hab] at h2
        exact absurd h2 (by simp)

theorem strLe_trans {a b c : String} (h1 : strLe a b = true)
    (h2 : strLe b c = true) : strLe a c = true := by
  unfold strLe at h1 h2 ⊢
  rw [Bool.not_eq_true'] at h1 h2 ⊢
  by_contra h3
  rw [Bool.not_eq_false] at h3
  cases hab : charListLt a.data b.data with
  | false =>
      have heq : a.data = b.data := charListLt_antisymm hab h1
      rw [heq] at h3
      rw [h3] at h2
      simp at h2
  | true =>
      have h4 : charListLt c.data b.data = true := charListLt_trans h3 hab
      rw [h4] at h2
      simp at h2

theorem strLt_or_eq_of_le {a b : String} (h : strLe a b = true) :
    strLt a b = true ∨ a = b := by
  unfold strLe at h
  rw [Bool.not_eq_true'] at h
  cases hab : charListLt a.data b.data with
  | false =>
      right
      have heq : a.data = b.data := charListLt_antisymm hab h
      cases a
      cases b
      exact congrArg String.mk heq
  | true => exact Or.inl hab

/-- Strict version of the `(timestamp_iso, id)` order. -/
def keyLT (a b : LogRow) : Prop :=
  strLt a.timestamp_iso b.timestamp_iso = true ∨
    (a.timestamp_iso = b.timestamp_iso ∧ a.id < b.id)

theorem charListLt_irrefl : ∀ (l : List Char), charListLt l l = false
  | [] => rfl
  | a :: as => by
      simp only [charListLt]
      rw [if_neg (Nat.lt_irrefl _), if_neg (Nat.lt_irrefl _)]
      exact charListLt_irrefl as

theorem strLe_refl (a : String) : strLe a a = true := by
  unfold strLe
  rw [charListLt_irrefl]
  rfl

theorem keyLT_le {a b : LogRow} (h : keyLT a b) : keyLE a b := by
  rcases h with h | ⟨h1, h2⟩
  · exact Or.inl h
  · exact Or.inr ⟨h1, Nat.le_of_lt h2⟩

theorem keyLT_of_fields {a b b' : LogRow}
    (hts : b'.timestamp_iso = b.timestamp_iso) (hid : b'.id = b.id)
    (h : keyLT a b) : keyLT a b' := by
  unfold keyLT at h ⊢
  rw [hts, hid]
  exact h

theorem latestRow_eq_getLast {l : List LogRow} (h : l.Pairwise keyLT) :
    latestRow l = l.getLast? := by
  induction l with
  | nil => rfl
  | cons row rest ih =>
      rcases List.pairwise_cons.mp h with ⟨hrow, hrest⟩
      cases rest with
      | nil => rfl
      | cons y ys =>
          have hr := ih hrest
          have hmem : (y :: ys).getLast (by simp) ∈ y :: ys := List.getLast_mem _
          have hlast : (y :: ys).getLast? = some ((y :: ys).getLast (by simp)) :=
            List.getLast?_eq_getLast _ (by simp)
          rw [latestRow, hr, hlast, latestChoose,
            if_pos (keyLT_le (hrow _ hmem)), List.getLast?_cons_cons, hlast]

theorem insertSorted_of_le {x : LogRow} {l : List LogRow}
    (h : ∀ y ∈ l, keyLE x y) : insertSorted x l = x :: l := by
  cases l with
  | nil => rfl
  | cons y ys => exact if_pos (h y (by simp))

theorem sortRows_of_sorted {l : List LogRow} (h : l.Pairwise keyLE) :
    sortRows l = l := by
  induction l with
  | nil => rfl
  | cons x xs ih =>
      rcases List.pairwise_cons.mp h with ⟨hx, hxs⟩
      rw [sortRows, ih hxs, insertSorted_of_le hx]

theorem endHash_last {h : String} {l : List LogRow} (hne : l ≠ []) :
    endHash h l = (l.getLast hne).event_hash := by
  induction l generalizing h with
  | nil => exact absurd rfl hne
  | cons row rest ih =>
      cases rest with
      | nil => rfl
      | cons y ys => rw [endHash, ih (by simp), List.getLast_cons_cons]

theorem chainFrom_snoc {h : String} {l : List LogRow} {row : LogRow}
    (hc : chainFrom h l) (hprev : row.prev_hash = endHash h l)
    (hev : row.event_hash = sha256_hex (endHash h l ++ canonicalRow row)) :
    chainFrom h (l ++ [row]) := by
  induction l generalizing h with
  | nil => exact ⟨hprev, hev, trivial⟩
  | cons y ys ih =>
      rcases hc with ⟨h1, h2, h3⟩
      exact ⟨h1, h2, ih h3 hprev hev⟩

theorem verifyWalk_of_chain {h : String} {l : List LogRow} (i : Nat)
    (hc : chainFrom h l) : verifyWalk h i l = ⟨true, none, none, none⟩ := by
  induction l generalizing h i with
  | nil => rfl
  | cons row rest ih =>
      rcases hc with ⟨h1, h2, h3⟩
      rw [verifyWalk, if_neg]
      · exact ih (i + 1) h3
      · push_neg
        exact ⟨h1, h2⟩

theorem verifyWalk_append {h : String} {pre : List LogRow} (i : Nat)
    (rest : List LogRow) (hc : chainFrom h pre) :
    verifyWalk h i (pre ++ rest) =
      verifyWalk (endHash h pre) (i + pre.length) rest := by
  induction pre generalizing h i with
  | nil =>
      simp only [List.nil_append, endHash, List.length_nil, Nat.add_zero]
  | cons row tl ih =>
      rcases hc with ⟨h1, h2, h3⟩
      have hn : i + 1 + tl.length = i + (row :: tl).length := by
        simp only [List.length_cons]
        omega
      rw [List.cons_append, verifyWalk, if_neg]
      · rw [ih (i + 1) h3, hn]
        rfl
      · push_neg
        exact ⟨h1, h2⟩

theorem chainFrom_split {h : String} {pre post : List LogRow} {t : LogRow}
    (hc : chainFrom h (pre ++ t :: post)) :
    chainFrom h pre ∧ t.prev_hash = endHash h pre ∧
      t.event_hash = sha256_hex (endHash h pre ++ canonicalRow t) := by
  induction pre generalizing h with
  | nil =>
      rcases hc with ⟨h1, h2, _⟩
      exact ⟨trivial, h1, h2⟩
  | cons y ys ih =>
      rcases hc with ⟨h1, h2, h3⟩
      rcases ih h3 with ⟨c1, c2, c3⟩
      exact ⟨⟨h1, h2, c1⟩, c2, c3⟩

theorem sha256_hex_head (s : String) :
    ∃ c rest, (sha256_hex s).data = c :: rest := ⟨_, _, rfl⟩

theorem sha256_hex_ne_empty (s : String) : sha256_hex s ≠ "" := by
  intro h
  obtain ⟨c, rest, hd⟩ := sha256_hex_head s
  have : (sha256_hex s).data = [] := by rw [h]
  rw [hd] at this
  exact List.cons_ne_nil _ _ this

/- ─────────────── the per-run invariant maintained by write_log ─────────────── -/

/-- The row `write_log db e` inserts. -/
def writtenRow (db : Db) (e : LogEntry) : LogRow :=
  ⟨db.nextId, e.timestamp_iso, e.run_id, e.saw_id, e.node_id, e.tool_name,
   e.decision, e.latency_ms, prevHashFor db e.run_id,
   sha256_hex (prevHashFor db e.run_id ++ canonicalEntry e), e.error⟩

theorem write_log_rows (db : Db) (e : LogEntry) :
    (write_log db e).rows = db.rows ++ [writtenRow db e] := rfl

theorem write_log_nextId (db : Db) (e : LogEntry) :
    (write_log db e).nextId = db.nextId + 1 := rfl

/-- The state of run `r` after a sequence of `write_log` appends whose
timestamps for `r` never exceeded `bound`: the rows of the run are `l` in
insertion order, their keys are strictly increasing and below the next
auto-increment id, and they form a hash chain from `GENESIS` of nonempty
event hashes. -/
structure GoodRun (db : Db) (r : String) (bound : String) (l : List LogRow) : Prop where
  filt : filterRun db.rows r = l
  ids_lt : ∀ row ∈ l, row.id < db.nextId
  ids_nodup : (l.map LogRow.id).Nodup
  sorted : l.Pairwise keyLT
  chain : chainFrom "GENESIS" l
  ev_ne : ∀ row ∈ l, row.event_hash ≠ ""
  ts_le : ∀ row ∈ l, strLe row.timestamp_iso bound = true

theorem goodRun_empty (db : Db) (r : String) (hinit : filterRun db.rows r = []) :
    GoodRun db r "" [] :=
  ⟨hinit, by simp, by simp, by simp, trivial, by simp, by simp⟩

/-- The `prev_hash` that `write_log` picks under the invariant is the chain
end of the rows so far. -/
theorem prevHash_eq {db : Db} {r bound : String} {l : List LogRow}
    (g : GoodRun db r bound l) :
    prevHashFor db r = endHash "GENESIS" l := by
  rw [prevHashFor, g.filt, latestRow_eq_getLast g.sorted]
  cases hl : l with
  | nil => rfl
  | cons y ys =>
      have hne : l ≠ [] := by rw [hl]; simp
      have hlast : l.getLast? = some (l.getLast hne) :=
        List.getLast?_eq_getLast _ hne
      rw [← hl, hlast]
      have hmem : l.getLast hne ∈ l := List.getLast_mem hne
      show (if (l.getLast hne).event_hash = "" then "GENESIS"
        else (l.getLast hne).event_hash) = endHash "GENESIS" l
      rw [if_neg (g.ev_ne _ hmem), endHash_last hne]

/-- Appending an entry of run `r` with a timestamp at least the bound
preserves the invariant, extending the run by the inserted row. -/
theorem goodRun_step {db : Db} {r bound : String} {l : List LogRow}
    (g : GoodRun db r bound l) (e : LogEntry) (hrun : e.run_id = r)
    (hts : strLe bound e.timestamp_iso = true) :
    GoodRun (write_log db e) r e.timestamp_iso (l ++ [writtenRow db e]) := by
  have hwr_run : (writtenRow db e).run_id = r := hrun
  have hwr_id : (writtenRow db e).id = db.nextId := rfl
  have hwr_ts : (writtenRow db e).timestamp_iso = e.timestamp_iso := rfl
  have hfilt : filterRun (write_log db e).rows r = l ++ [writtenRow db e] := by
    rw [write_log_rows, filterRun, List.filter_append, ← filterRun, g.filt]
    simp [filterRun, hwr_run]
  have hlt : ∀ row ∈ l, keyLT row (writtenRow db e) := by
    intro row hm
    have h1 : strLe row.timestamp_iso e.timestamp_iso = true :=
      strLe_trans (g.ts_le row hm) hts
    rcases strLt_or_eq_of_le h1 with h2 | h2
    · exact Or.inl h2
    · exact Or.inr ⟨h2, by rw [hwr_id]; exact g.ids_lt row hm⟩
  refine ⟨hfilt, ?_, ?_, ?_, ?_, ?_, ?_⟩
  · intro row hm
    rw [write_log_nextId]
    rcases List.mem_append.mp hm with hm | hm
    · exact Nat.lt_succ_of_lt (g.ids_lt row hm)
    · rw [List.mem_singleton.mp hm, hwr_id]
      exact Nat.lt_succ_self _
  · rw [List.map_append]
    refine List.Nodup.append g.ids_nodup (by simp) ?_
    intro a ha hb
    rcases List.mem_map.mp ha with ⟨row, hrow, hrowa⟩
    rcases List.mem_map.mp hb with ⟨row2, hrow2, hrow2b⟩
    rw [List.mem_singleton.mp hrow2, hwr_id] at hrow2b
    rw [← hrowa] at hrow2b
    exact absurd hrow2b.symm (Nat.ne_of_lt (g.ids_lt row hrow))
  · rw [List.pairwise_append]
    refine ⟨g.sorted, by simp, ?_⟩
    intro a ha b hb
    rw [List.mem_singleton.mp hb]
    exact hlt a ha
  · refine chainFrom_snoc g.chain ?_ ?_
    · show prevHashFor db e.run_id = endHash "GENESIS" l
      rw [hrun]
      exact prevHash_eq g
    · have hp : (writtenRow db e).prev_hash = endHash "GENESIS" l := by
        show prevHashFor db e.run_id = endHash "GENESIS" l
        rw [hrun]
        exact prevHash_eq g
      have hc : canonicalRow (writtenRow db e) = canonicalEntry e := rfl
      show sha256_hex (prevHashFor db e.run_id ++ canonicalEntry e) =
        sha256_hex (endHash "GENESIS" l ++ canonicalRow (writtenRow db e))
      rw [hc]
      rw [show prevHashFor db e.run_id = endHash "GENESIS" l from hp]
  · intro row hm
    rcases List.mem_append.mp hm with hm | hm
    · exact g.ev_ne row hm
    · rw [List.mem_singleton.mp hm]
      exact sha256_hex_ne_empty _
  · intro row hm
    rcases List.mem_append.mp hm with hm | hm
    · exact strLe_trans (g.ts_le row hm) hts
    · rw [List.mem_singleton.mp hm, hwr_ts]
      exact strLe_refl _

/-- Appending an entry of a different run leaves the invariant for `r`
untouched. -/
theorem goodRun_skip {db : Db} {r bound : String} {l : List LogRow}
    (g : GoodRun db r bound l) (e : LogEntry) (hrun : e.run_id ≠ r) :
    GoodRun (write_log db e) r bound l := by
  have hfilt : filterRun (write_log db e).rows r = l := by
    rw [write_log_rows, filterRun, List.filter_append, ← filterRun, g.filt]
    simp [filterRun, hrun]
    show (writtenRow db e).run_id ≠ r
    exact hrun
  refine ⟨hfilt, ?_, g.ids_nodup, g.sorted, g.chain, g.ev_ne, g.ts_le⟩
  intro row hm
  rw [write_log_nextId]
  exact Nat.lt_succ_of_lt (g.ids_lt row hm)

/-- Main invariant: any batch of appends whose per-run timestamps are
non-decreasing leaves every run in a good state. -/
theorem writeLogs_good (r : String) (entries : List LogEntry) :
    ∀ (db : Db) (bound : String) (l : List LogRow), GoodRun db r bound l →
      tsMono r bound entries = true →
      ∃ bound2 l2, GoodRun (writeLogs db entries) r bound2 l2 := by
  induction entries with
  | nil => exact fun db bound l g _ => ⟨bound, l, g⟩
  | cons e es ih =>
      intro db bound l g hmono
      rw [tsMono] at hmono
      by_cases hrun : e.run_id = r
      · rw [if_pos hrun, Bool.and_eq_true] at hmono
        exact ih (write_log db e) e.timestamp_iso _
          (goodRun_step g e hrun hmono.1) hmono.2
      · rw [if_neg hrun] at hmono
        exact ih (write_log db e) bound l (goodRun_skip g e hrun) hmono

/- ───────────────────────── claims C1, C3, C10 ───────────────────────── -/

/-- Claim C1 (amended with the monotone-timestamp condition): for every
run_id, if the ledger starts with no rows for the run and entries are
appended through write_log with per-run non-decreasing timestamps, then the
rows of the run in (timestamp_iso, id) order form a hash chain: the first
prev_hash is the literal GENESIS, every later prev_hash equals the event
hash of the preceding row, and each event_hash is the SHA-256 of prev_hash
concatenated with the canonical JSON of the seven-field payload. -/
theorem c1_write_log_hash_chain (db : Db) (r : String) (entries : List LogEntry)
    (hinit : filterRun db.rows r = [])
    (hmono : tsMono r "" entries = true) :
    chainFrom "GENESIS" (sortRows (filterRun (writeLogs db entries).rows r)) := by
  obtain ⟨bound2, l2, g⟩ :=
    writeLogs_good r entries db "" [] (goodRun_empty db r hinit) hmono
  rw [g.filt, sortRows_of_sorted (g.sorted.imp fun hab => keyLT_le hab)]
  exact g.chain

/-- Two well-ordered entries used by witnesses: run r1, ascending timestamps. -/
def okA : LogEntry := ⟨"t1", "r1", "s1", "a", "", "allow", 0, none⟩

/-- Second witness entry, one hundredth of a millisecond of latency. -/
def okB : LogEntry := ⟨"t2", "r1", "s1", "b", "", "allow", 1, none⟩

/-- The witness ledger built from the two well-ordered entries. -/
def okDb : Db := writeLogs emptyDb [okA, okB]

/-- Witness for C1: on a concrete empty database and two concrete ascending
entries, the hypotheses hold and the chain property follows. -/
theorem c1_witness :
    filterRun emptyDb.rows "r1" = [] ∧ tsMono "r1" "" [okA, okB] = true ∧
    chainFrom "GENESIS" (sortRows (filterRun okDb.rows "r1")) :=
  ⟨rfl, by decide, c1_write_log_hash_chain emptyDb "r1" [okA, okB] rfl (by decide)⟩

/-- Out-of-order counterexample entries: the second append carries an
earlier timestamp than the first. -/
def ceA : LogEntry := ⟨"t2", "r1", "s1", "a", "", "allow", 0, none⟩

/-- The later append with the earlier timestamp. -/
def ceB : LogEntry := ⟨"t1", "r1", "s1", "b", "", "allow", 0, none⟩

/-- The ledger produced by the two out-of-order appends. -/
def ceDb : Db := writeLogs emptyDb [ceA, ceB]

/-- Counterexample for C1 as frozen: two rows written by write_log whose
timestamps decrease do not form a hash chain in (timestamp_iso, id) order —
the first row in that order stores the event hash of the other row, not
GENESIS. -/
theorem c1_counterexample :
    ¬ chainFrom "GENESIS" (sortRows (filterRun ceDb.rows "r1")) := by
  decide

/-- Claim C3 (amended with the monotone-timestamp condition): for every
run_id that starts with zero ledger rows, verify_run_integrity returns
valid true (with no mismatch fields) immediately after any sequence of
entries with per-run non-decreasing timestamps has been appended through
write_log with no intervening mutation; the sequence may be empty. -/
theorem c3_append_then_verify (db : Db) (r : String) (entries : List LogEntry)
    (hinit : filterRun db.rows r = [])
    (hmono : tsMono r "" entries = true) :
    verify_run_integrity (writeLogs db entries) r = ⟨true, none, none, none⟩ := by
  obtain ⟨bound2, l2, g⟩ :=
    writeLogs_good r entries db "" [] (goodRun_empty db r hinit) hmono
  rw [verify_run_integrity, g.filt,
    sortRows_of_sorted (g.sorted.imp fun hab => keyLT_le hab)]
  exact verifyWalk_of_chain 0 g.chain

/-- Witness for C3: the zero-entry run verifies as valid, and so does the
concrete two-entry append. -/
theorem c3_witness :
    verify_run_integrity (writeLogs emptyDb []) "r1" = ⟨true, none, none, none⟩ ∧
    verify_run_integrity (writeLogs emptyDb [okA, okB]) "r1" =
      ⟨true, none, none, none⟩ :=
  ⟨c3_append_then_verify emptyDb "r1" [] rfl rfl,
   c3_append_then_verify emptyDb "r1" [okA, okB] rfl (by decide)⟩

/-- Counterexample for C3 as frozen: after appending two entries through
write_log with decreasing timestamps and no mutation at all, verification
reports the ledger as invalid. -/
theorem c3_counterexample : (verify_run_integrity ceDb "r1").valid = false := by
  decide

/-- Claim C10: if the most recent stored row of a run carries an
empty-string event_hash, the next write_log call sets the new prev_hash to
the literal GENESIS — producing exactly the row it would produce if the run
had no prior rows at all (second conjunct), so an empty stored hash is
indistinguishable from absence at chain level. -/
theorem c10_empty_hash_restarts_chain (db : Db) (e : LogEntry) (row : LogRow)
    (hlatest : latestRow (filterRun db.rows e.run_id) = some row)
    (hempty : row.event_hash = "") :
    (write_log db e).rows = db.rows ++
      [⟨db.nextId, e.timestamp_iso, e.run_id, e.saw_id, e.node_id, e.tool_name,
        e.decision, e.latency_ms, "GENESIS",
        sha256_hex ("GENESIS" ++ canonicalEntry e), e.error⟩] ∧
    ∀ db2 : Db, latestRow (filterRun db2.rows e.run_id) = none →
      (write_log db2 e).rows = db2.rows ++
        [⟨db2.nextId, e.timestamp_iso, e.run_id, e.saw_id, e.node_id,
          e.tool_name, e.decision, e.latency_ms, "GENESIS",
          sha256_hex ("GENESIS" ++ canonicalEntry e), e.error⟩] := by
  have hprev : prevHashFor db e.run_id = "GENESIS" := by
    rw [prevHashFor, hlatest]
    exact if_pos hempty
  constructor
  · rw [write_log_rows]
    rw [show writtenRow db e = ⟨db.nextId, e.timestamp_iso, e.run_id, e.saw_id,
      e.node_id, e.tool_name, e.decision, e.latency_ms, "GENESIS",
      sha256_hex ("GENESIS" ++ canonicalEntry e), e.error⟩ by
        rw [writtenRow, hprev]]
  · intro db2 h2
    have hprev2 : prevHashFor db2 e.run_id = "GENESIS" := by
      rw [prevHashFor, h2]
    rw [write_log_rows]
    rw [show writtenRow db2 e = ⟨db2.nextId, e.timestamp_iso, e.run_id,
      e.saw_id, e.node_id, e.tool_name, e.decision, e.latency_ms, "GENESIS",
      sha256_hex ("GENESIS" ++ canonicalEntry e), e.error⟩ by
        rw [writtenRow, hprev2]]

/-- A database whose single stored row carries an empty event_hash, as a
legacy schema migration can leave behind. -/
def legacyDb : Db :=
  ⟨[⟨1, "t0", "r1", "s1", "boot", "", "allow", 0, "GENESIS", "", none⟩], 2, []⟩

/-- Witness for C10: appending to the legacy database whose latest row for
the run stores an empty event_hash yields a GENESIS-anchored row. -/
theorem c10_witness :
    latestRow (filterRun legacyDb.rows "r1") =
      some ⟨1, "t0", "r1", "s1", "boot", "", "allow", 0, "GENESIS", "", none⟩ ∧
    (write_log legacyDb okA).rows = legacyDb.rows ++
      [⟨2, "t1", "r1", "s1", "a", "", "allow", 0, "GENESIS",
        sha256_hex ("GENESIS" ++ canonicalEntry okA), none⟩] :=
  ⟨rfl, (c10_empty_hash_restarts_chain legacyDb okA _ rfl rfl).1⟩

/- ───────────────────────────── claim C2 ───────────────────────────── -/

/-- The row produced by adding `delta` to a stored latency, as the tamper
scenario UPDATE does. -/
def bumpLatency (row : LogRow) (delta : Int) : LogRow :=
  { row with latency_ms := row.latency_ms + delta }

theorem keyLT_congr {a a' b b' : LogRow}
    (ha1 : a'.timestamp_iso = a.timestamp_iso) (ha2 : a'.id = a.id)
    (hb1 : b'.timestamp_iso = b.timestamp_iso) (hb2 : b'.id = b.id)
    (h : keyLT a b) : keyLT a' b' := by
  unfold keyLT at h ⊢
  rw [ha1, ha2, hb1, hb2]
  exact h

theorem filterRun_map (rows : List LogRow) (r : String) (f : LogRow → LogRow)
    (hf : ∀ row, (f row).run_id = row.run_id) :
    filterRun (rows.map f) r = (filterRun rows r).map f := by
  induction rows with
  | nil => rfl
  | cons x xs ih =>
      simp only [filterRun] at ih ⊢
      by_cases hx : x.run_id = r
      · simp [List.map_cons, List.filter_cons, hf x, hx, ih]
      · simp [List.map_cons, List.filter_cons, hf x, hx, ih]

theorem map_fix_split {pre post : List LogRow} {t : LogRow} (f : LogRow → LogRow)
    (hpre : ∀ x ∈ pre, f x = x) (hpost : ∀ x ∈ post, f x = x) :
    (pre ++ t :: post).map f = pre ++ f t :: post := by
  rw [List.map_append, List.map_cons]
  congr 1
  · rw [List.map_congr_left hpre]
    exact List.map_id pre
  · congr 1
    rw [List.map_congr_left hpost]
    exact List.map_id post

theorem nodup_split_ne {pre post : List LogRow} {t : LogRow}
    (h : ((pre ++ t :: post).map LogRow.id).Nodup) :
    (∀ x ∈ pre, x.id ≠ t.id) ∧ (∀ x ∈ post, x.id ≠ t.id) := by
  rw [List.map_append, List.map_cons, List.nodup_append] at h
  obtain ⟨h1, h2, h3⟩ := h
  constructor
  · intro x hx heq
    exact h3 (List.mem_map_of_mem LogRow.id hx) (by rw [heq]; simp)
  · intro x hx heq
    rcases List.nodup_cons.mp h2 with ⟨hnot, _⟩
    exact hnot (by rw [← heq]; exact List.mem_map_of_mem LogRow.id hx)

theorem pairwise_keyLT_bump {pre post : List LogRow} {t : LogRow} (delta : Int)
    (h : (pre ++ t :: post).Pairwise keyLT) :
    (pre ++ bumpLatency t delta :: post).Pairwise keyLT := by
  rw [List.pairwise_append] at h ⊢
  obtain ⟨h1, h2, h3⟩ := h
  rw [List.pairwise_cons] at h2 ⊢
  refine ⟨h1, ⟨?_, h2.2⟩, ?_⟩
  · intro b hb
    exact keyLT_congr rfl rfl rfl rfl (h2.1 b hb)
  · intro a ha b hb
    rcases List.mem_cons.mp hb with hb | hb
    · rw [hb]
      exact keyLT_congr rfl rfl rfl rfl (h3 a ha t (by simp))
    · exact h3 a ha b (by simp [hb])

/-- Claim C2 (amended: the mutated column must be one the canonical payload
covers — mutating latency_ms as in the scenario — and the recomputed digest
must differ from the stored one, which SHA-256 collision resistance makes
certain at any concrete input): after a run written by write_log in
non-decreasing timestamp order has the latency_ms of its row at zero-based
position k (the row after prefix `pre`) changed by `delta`,
verify_run_integrity returns valid false, first_mismatch_index k, the
recomputed expected hash, and the unchanged stored hash, and the two hashes
differ; verification halts at that row. -/
theorem c2_tamper_latency_detected (db : Db) (r : String) (entries : List LogEntry)
    (pre post : List LogRow) (t : LogRow) (delta : Int)
    (hinit : filterRun db.rows r = [])
    (hmono : tsMono r "" entries = true)
    (hsplit : filterRun (writeLogs db entries).rows r = pre ++ t :: post)
    (hne : sha256_hex (endHash "GENESIS" pre ++ canonicalRow (bumpLatency t delta)) ≠
      t.event_hash) :
    verify_run_integrity (tamperLatency (writeLogs db entries) t.id delta) r =
      ⟨false, some pre.length,
       some (sha256_hex (endHash "GENESIS" pre ++ canonicalRow (bumpLatency t delta))),
       some t.event_hash⟩ ∧
    sha256_hex (endHash "GENESIS" pre ++ canonicalRow (bumpLatency t delta)) ≠
      t.event_hash := by
  obtain ⟨bound2, l2, g⟩ :=
    writeLogs_good r entries db "" [] (goodRun_empty db r hinit) hmono
  have hl : l2 = pre ++ t :: post := by rw [← g.filt, hsplit]
  refine ⟨?_, hne⟩
  have hf : ∀ row : LogRow,
      (tamperLatencyRow t.id delta row).run_id = row.run_id := by
    intro row
    unfold tamperLatencyRow
    by_cases hid : row.id = t.id
    · rw [if_pos hid]
    · rw [if_neg hid]
  have hids := nodup_split_ne (hl ▸ g.ids_nodup)
  have hfixpre : ∀ x ∈ pre, tamperLatencyRow t.id delta x = x := by
    intro x hx
    unfold tamperLatencyRow
    rw [if_neg (hids.1 x hx)]
  have hfixpost : ∀ x ∈ post, tamperLatencyRow t.id delta x = x := by
    intro x hx
    unfold tamperLatencyRow
    rw [if_neg (hids.2 x hx)]
  have hft : tamperLatencyRow t.id delta t = bumpLatency t delta := by
    unfold tamperLatencyRow bumpLatency
    rw [if_pos rfl]
  have hmap : filterRun (tamperLatency (writeLogs db entries) t.id delta).rows r =
      pre ++ bumpLatency t delta :: post := by
    show filterRun ((writeLogs db entries).rows.map (tamperLatencyRow t.id delta)) r = _
    rw [filterRun_map _ _ _ hf, g.filt, hl, map_fix_split _ hfixpre hfixpost, hft]
  have hsorted : (pre ++ bumpLatency t delta :: post).Pairwise keyLT :=
    pairwise_keyLT_bump delta (hl ▸ g.sorted)
  have hchain := g.chain
  rw [hl] at hchain
  obtain ⟨hcpre, hprev_t, _⟩ := chainFrom_split hchain
  rw [verify_run_integrity, hmap,
    sortRows_of_sorted (hsorted.imp fun hab => keyLT_le hab),
    verifyWalk_append 0 _ hcpre, verifyWalk, if_pos]
  · rw [Nat.zero_add]
    rfl
  · exact Or.inr (fun hcontra => hne (by
      have hbe : (bumpLatency t delta).event_hash = t.event_hash := rfl
      rw [← hbe, hcontra]))

/-- The default row used to index into concrete ledgers in witnesses. -/
def wDefaultRow : LogRow := ⟨0, "", "", "", "", "", "", 0, "", "", none⟩

/-- The first row of the witness ledger. -/
def wRow0 : LogRow := (filterRun okDb.rows "r1").getD 0 wDefaultRow

/-- The second row of the witness ledger, the tamper target. -/
def wTarget : LogRow := (filterRun okDb.rows "r1").getD 1 wDefaultRow

/-- The sorted prefix before the tamper target in the witness ledger. -/
def wPre : List LogRow := [wRow0]

/-- Witness for C2: tampering the second row of the concrete two-row ledger
by +1.0 ms is reported at index 1 with differing hashes. -/
theorem c2_witness :
    tsMono "r1" "" [okA, okB] = true ∧
    sha256_hex (endHash "GENESIS" wPre ++ canonicalRow (bumpLatency wTarget 100)) ≠
      wTarget.event_hash ∧
    verify_run_integrity (tamperLatency okDb wTarget.id 100) "r1" =
      ⟨false, some wPre.length,
       some (sha256_hex (endHash "GENESIS" wPre ++ canonicalRow (bumpLatency wTarget 100))),
       some wTarget.event_hash⟩ :=
  ⟨by decide, by decide,
   (c2_tamper_latency_detected emptyDb "r1" [okA, okB] wPre [] wTarget 100 rfl
     (by decide) (by decide) (by decide)).1⟩

/-- Counterexample for C2 as frozen: mutating the stored saw_id column — one
stored field of one row — is invisible to verify_run_integrity, which still
reports the run as valid instead of the claimed valid false. -/
theorem c2_counterexample :
    (tamperSawId okDb 1 "TAMPERED").rows.map LogRow.saw_id ≠
      okDb.rows.map LogRow.saw_id ∧
    (verify_run_integrity (tamperSawId okDb 1 "TAMPERED") "r1").valid = true := by
  refine ⟨by decide, by decide⟩

/- ───────────────────── dynamic values and run context ───────────────────── -/

/-- A Python value as it appears in tool inputs, tool outputs and
`ctx.state`.  Numbers are modelled in hundredths, as everywhere in this
development. -/
inductive Value where
  | null : Value
  | bool : Bool → Value
  | num : Int → Value
  | str : String → Value
  | dict : List (String × Value) → Value
  | list : List Value → Value

/-- `d.get(k)` on a dict value; `none` on a missing key or a non-dict. -/
def vGet (v : Value) (k : String) : Option Value :=
  match v with
  | .dict entries => (entries.find? (fun e => decide (e.1 = k))).map (fun e => e.2)
  | _ => none

/-- Python truthiness of a value. -/
def vTruthy : Value → Bool
  | .null => false
  | .bool b => b
  | .num n => decide (n ≠ 0)
  | .str s => decide (s ≠ "")
  | .dict es => !es.isEmpty
  | .list xs => !xs.isEmpty

/-- Model of models.RunContext: identifiers, attribution strings, and the
mutable state mapping. -/
structure Ctx where
  run_id : String
  saw_id : String
  policy_id : String
  started_at : String
  operator : String
  approver : String
  state : List (String × Value)

/-- Read a key of `ctx.state`. -/
def stateGet (st : List (String × Value)) (k : String) : Option Value :=
  (st.find? (fun e => decide (e.1 = k))).map (fun e => e.2)

/-- Write a key of `ctx.state`, replacing an existing binding. -/
def stateSet (st : List (String × Value)) (k : String) (v : Value) :
    List (String × Value) :=
  if st.any (fun e => decide (e.1 = k)) then
    st.map (fun e => if e.1 = k then (k, v) else e)
  else st ++ [(k, v)]

/- ───────────────────────── policy engine (policy.py) ───────────────────────── -/

/-- Model of models.Decision. -/
inductive Decision where
  | allow : Decision
  | deny : Decision
deriving Repr, DecidableEq

/-- Model of models.PolicyDecision. -/
structure PolicyDecision where
  decision : Decision
  tool_name : String
  reasons : List String
deriving Repr, DecidableEq

/-- One entry of `policy.write_restrictions`. -/
structure WriteRestriction where
  allowed_template_ids : List String
  allow_create_new_decks : Bool
deriving Repr, DecidableEq

/-- The egress booleans of a policy bundle. -/
structure Egress where
  allow_external_http : Bool
  allowed_domains : List String
  allow_email_send : Bool
  allow_slack_dm : Bool
deriving Repr, DecidableEq

/-- The evaluation-ready policy dict handed to policy_check. -/
structure Policy where
  policy_id : String
  sensitivity_level : String
  tool_allowlist : List String
  tool_denylist : List String
  egress : Egress
  write_restrictions : List (String × WriteRestriction)
deriving Repr, DecidableEq

/-- policy.INFRA_TOOLS: tools exempt from policy evaluation. -/
def INFRA_TOOLS : List String := ["tool_logger_write"]

/-- policy.DEFAULT_POLICY, the hardcoded V1 bundle. -/
def DEFAULT_POLICY : Policy :=
  ⟨"policy_board_metrics_v1", "medium",
   ["tool_salesforce_read_pipeline", "tool_stripe_read_revenue",
    "tool_reconcile_metrics", "tool_generate_board_summary",
    "tool_slides_update_template", "tool_logger_write"],
   ["tool_browser", "tool_shell_exec", "tool_external_http",
    "tool_email_send", "tool_slack_dm"],
   ⟨false, [], false, false⟩,
   [("tool_slides_update_template", ⟨["TEMPLATE_DECK_V1"], false⟩)]⟩

/-- The exact denylist reason string of policy_check. -/
def denylistMsg (tool_name : String) : String :=
  "Tool \x27" ++ tool_name ++ "\x27 is on the denylist."

/-- The exact allowlist reason string of policy_check, naming the tool and
the policy id. -/
def allowlistMsg (tool_name policy_id : String) : String :=
  "Tool \x27" ++ tool_name ++ "\x27 is not on the allowlist for policy \x27" ++
    policy_id ++ "\x27."

/-- Python str() of a list of plain strings, as interpolated into the
template reason. -/
def pyStrList (xs : List String) : String :=
  "[" ++ String.intercalate ", " (xs.map (fun s => "\x27" ++ s ++ "\x27")) ++ "]"

/-- Python str() of the template id value interpolated into the reason
string.  Only the string case is exercised by the repository, and container
renderings are abbreviated. -/
def pyStrValue : Value → String
  | .str s => s
  | .bool true => "True"
  | .bool false => "False"
  | .num n => dec2Repr n
  | .null => "None"
  | .dict _ => "\x7b...\x7d"
  | .list _ => "[...]"

/-- The exact write-restriction reason string, naming the rejected id and
the allowed list. -/
def templateMsg (template_id : Value) (allowed : List String) : String :=
  "Template ID \x27" ++ pyStrValue template_id ++
    "\x27 is not in the allowed list: " ++ pyStrList allowed ++ "."

/-- The create-new-deck reason string. -/
def createMsg : String := "Creating new decks is not allowed by policy."

/-- The three egress reason strings. -/
def httpMsg : String := "External HTTP egress is disabled by policy."

/-- Email egress reason. -/
def emailMsg : String := "Email send is disabled by policy."

/-- Slack egress reason. -/
def slackMsg : String := "Slack DM is disabled by policy."

/-- The reasons accumulated by step 3 of policy_check, in source order. -/
def egressReasons (tool_name : String) (egress : Egress) : List String :=
  (if tool_name = "tool_external_http" ∧ egress.allow_external_http = false
   then [httpMsg] else []) ++
  (if tool_name = "tool_email_send" ∧ egress.allow_email_send = false
   then [emailMsg] else []) ++
  (if tool_name = "tool_slack_dm" ∧ egress.allow_slack_dm = false
   then [slackMsg] else [])

/-- `policy["write_restrictions"]` lookup by tool name. -/
def lookupWR (wrs : List (String × WriteRestriction)) (tool : String) :
    Option WriteRestriction :=
  (wrs.find? (fun e => decide (e.1 = tool))).map (fun e => e.2)

/-- Membership test `template_id in allowed_template_ids`: a Python `in`
against a list of strings, false for any non-string value. -/
def templateIn : Value → List String → Bool
  | .str s, allowed => allowed.contains s
  | _, _ => false

/-- The reasons accumulated by step 4 of policy_check, in source order:
template id not allowed, then create-new-deck not allowed. -/
def writeReasons (tool_inputs : Value) (wr : WriteRestriction) : List String :=
  (if templateIn ((vGet tool_inputs "template_id").getD (.str ""))
        wr.allowed_template_ids = false
   then [templateMsg ((vGet tool_inputs "template_id").getD (.str ""))
           wr.allowed_template_ids]
   else []) ++
  (if vTruthy ((vGet tool_inputs "create_new_deck").getD (.bool false)) = true ∧
        wr.allow_create_new_decks = false
   then [createMsg] else [])

/-- The reasons step 4 contributes overall: empty unless the call is a
write on a tool with a write_restrictions entry. -/
def writeCheckReasons (is_write : Bool)
    (wrs : List (String × WriteRestriction)) (tool_name : String)
    (tool_inputs : Value) : List String :=
  match is_write, lookupWR wrs tool_name with
  | true, some wr => writeReasons tool_inputs wr
  | _, _ => []

/-- Model of policy.policy_check: denylist, allowlist, egress gates and
write restrictions in order, with short-circuit on the first deny, and the
allow decision carrying the single reason all_checks_passed. -/
def policy_check (tool_name : String) (tool_inputs : Value) (ctx : Ctx)
    (is_write : Bool) (policy : Policy) : PolicyDecision :=
  if tool_name ∈ policy.tool_denylist then
    ⟨.deny, tool_name, [denylistMsg tool_name]⟩
  else if tool_name ∉ policy.tool_allowlist then
    ⟨.deny, tool_name, [allowlistMsg tool_name policy.policy_id]⟩
  else if egressReasons tool_name policy.egress ≠ [] then
    ⟨.deny, tool_name, egressReasons tool_name policy.egress⟩
  else if writeCheckReasons is_write policy.write_restrictions tool_name
      tool_inputs ≠ [] then
    ⟨.deny, tool_name,
     writeCheckReasons is_write policy.write_restrictions tool_name tool_inputs⟩
  else ⟨.allow, tool_name, ["all_checks_passed"]⟩

/- ──────────────────── claim C4 and the C5 policy counterexample ─────────────────── -/

/-- Claim C4: policy_check evaluates denylist, allowlist, egress gates and
write restrictions in that fixed order with short-circuit on the first
deny: a denylisted tool is denied with the exact denylist reason regardless
of every other policy field; a tool absent from the allowlist (and not
denylisted, per the short-circuit order the claim itself states) is denied
with the reason naming the tool and the policy id; and when no check fails
the decision is allow with the single reason all_checks_passed. -/
theorem c4_policy_check_order (tool_name : String) (tool_inputs : Value)
    (ctx : Ctx) (is_write : Bool) (policy : Policy) :
    (tool_name ∈ policy.tool_denylist →
      policy_check tool_name tool_inputs ctx is_write policy =
        ⟨.deny, tool_name, [denylistMsg tool_name]⟩) ∧
    (tool_name ∉ policy.tool_denylist → tool_name ∉ policy.tool_allowlist →
      policy_check tool_name tool_inputs ctx is_write policy =
        ⟨.deny, tool_name, [allowlistMsg tool_name policy.policy_id]⟩) ∧
    (tool_name ∉ policy.tool_denylist → tool_name ∈ policy.tool_allowlist →
      egressReasons tool_name policy.egress = [] →
      writeCheckReasons is_write policy.write_restrictions tool_name
        tool_inputs = [] →
      policy_check tool_name tool_inputs ctx is_write policy =
        ⟨.allow, tool_name, ["all_checks_passed"]⟩) := by
  refine ⟨?_, ?_, ?_⟩
  · intro hd
    rw [policy_check, if_pos hd]
  · intro hd ha
    rw [policy_check, if_neg hd, if_pos ha]
  · intro hd ha he hw
    rw [policy_check, if_neg hd, if_neg (fun hc => hc ha),
      if_neg (fun hc => hc he), if_neg (fun hc => hc hw)]

/-- A concrete run context for policy witnesses. -/
def wCtx : Ctx :=
  ⟨"r1", "saw_board_metrics_v1", "policy_board_metrics_v1", "t0",
   "bizops_analyst", "bizops_manager", []⟩

/-- Witness for C4: a denylisted tool, an unknown tool, and a clean write
against the default policy. -/
theorem c4_witness :
    policy_check "tool_browser" (.dict []) wCtx false DEFAULT_POLICY =
      ⟨.deny, "tool_browser", [denylistMsg "tool_browser"]⟩ ∧
    policy_check "tool_something_random" (.dict []) wCtx false DEFAULT_POLICY =
      ⟨.deny, "tool_something_random",
       [allowlistMsg "tool_something_random" "policy_board_metrics_v1"]⟩ ∧
    policy_check "tool_slides_update_template"
        (.dict [("template_id", .str "TEMPLATE_DECK_V1")]) wCtx true
        DEFAULT_POLICY =
      ⟨.allow, "tool_slides_update_template", ["all_checks_passed"]⟩ :=
  ⟨(c4_policy_check_order _ _ _ _ _).1 (by decide),
   (c4_policy_check_order _ _ _ _ _).2.1 (by decide) (by decide),
   (c4_policy_check_order _ _ _ _ _).2.2 (by decide) (by decide) rfl rfl⟩

/-- Is `pat` a prefix of the character list. -/
def listPrefix : List Char → List Char → Bool
  | [], _ => true
  | _ :: _, [] => false
  | a :: as, b :: bs => decide (a = b) && listPrefix as bs

/-- Does `pat` occur inside the character list. -/
def listInfix (pat : List Char) : List Char → Bool
  | [] => listPrefix pat []
  | h :: t => listPrefix pat (h :: t) || listInfix pat t

/-- Substring test used to state that a message does not mention an id. -/
def strContains (hay pat : String) : Bool := listInfix pat.data hay.data

/-- Inputs that carry the rogue template id. -/
def rogueInputs : Value := .dict [("template_id", .str "ROGUE_TEMPLATE")]

/-- A policy whose write_restrictions cover tool_x although tool_x is not
allowlisted. -/
def cePolicy : Policy :=
  ⟨"policy_ce_v1", "medium", ["tool_other"], [], ⟨false, [], false, false⟩,
   [("tool_x", ⟨["TEMPLATE_DECK_V1"], false⟩)]⟩

/-- Counterexample for C5 as frozen: a write-action tool with a
write_restrictions entry and a template id outside the allowed list is
denied, but because the allowlist check precedes the write check the single
reason names only the allowlist and never mentions the rejected id, against
the claimed reason naming the rejected id and the allowed list. -/
theorem c5_counterexample :
    lookupWR cePolicy.write_restrictions "tool_x" =
      some ⟨["TEMPLATE_DECK_V1"], false⟩ ∧
    templateIn ((vGet rogueInputs "template_id").getD (.str ""))
      ["TEMPLATE_DECK_V1"] = false ∧
    policy_check "tool_x" rogueInputs wCtx true cePolicy =
      ⟨.deny, "tool_x", [allowlistMsg "tool_x" "policy_ce_v1"]⟩ ∧
    strContains (allowlistMsg "tool_x" "policy_ce_v1") "ROGUE_TEMPLATE" = false :=
  ⟨rfl, rfl, rfl, rfl⟩

/- ───────────────────────── engine data model (engine.py) ───────────────────────── -/

/-- One node dict of a SAW graph: id, type tag, optional tool name and the
write_action flag (absent means false, as `node.get("write_action", False)`). -/
structure Node where
  id : String
  type : String
  tool : Option String
  write_action : Bool

/-- One edge dict of a SAW graph. -/
structure Edge where
  src : String
  dst : String

/-- The policy_bundle of a SAW spec. -/
structure PolicyBundle where
  policy_id : String
  sensitivity_level : String
  allowlist : List String
  denylist : List String
  egress : Egress
  write_restrictions : List (String × WriteRestriction)

/-- A parsed SAW spec: saw_id, graph nodes and edges, policy bundle. -/
structure SawSpec where
  saw_id : String
  nodes : List Node
  edges : List Edge
  policy_bundle : PolicyBundle

/-- Model of policy.policy_from_spec: materialize the evaluation-ready
policy from the bundle (the set conversions only affect membership, which
list membership models). -/
def policy_from_spec (spec : SawSpec) : Policy :=
  ⟨spec.policy_bundle.policy_id, spec.policy_bundle.sensitivity_level,
   spec.policy_bundle.allowlist, spec.policy_bundle.denylist,
   spec.policy_bundle.egress, spec.policy_bundle.write_restrictions⟩

/-- Model of models.ToolResult. -/
structure ToolResult where
  tool_name : String
  success : Bool
  data : Value
  error : Option String

/-- The tool registry: a name-to-function mapping.  The engine is
parametrized over it, with concrete registries supplied per theorem. -/
def Registry : Type := List (String × (Value → Ctx → ToolResult))

/-- Registry lookup. -/
def regLookup (reg : Registry) (name : String) :
    Option (Value → Ctx → ToolResult) :=
  ((List.find? (fun e => decide (e.1 = name)) reg)).map (fun e => e.2)

/-- Model of engine.RunSummary.  Times count hundredths of a millisecond. -/
structure RunSummary where
  run_id : String
  saw_id : String
  status : String
  system_time_ms : Int
  human_wait_time_ms : Int
  total_time_ms : Int
  node_results : List (String × Value)
  final_outputs : Value
  denial_reason : Option String

/-- The conditions run_saw can raise: unsupported branching
(NotImplementedError), ValueError, KeyError, plus the marker for a walk
that never terminates (a cyclic adjacency loops forever in the source). -/
inductive EngErr where
  | notImplemented : String → EngErr
  | valueError : String → EngErr
  | keyError : String → EngErr
  | outOfFuel : EngErr

/-- Engine-internal state threaded through the walk: the database, the run
context, the summary accumulators, the last successful tool result, and the
oracle streams of timestamps and measured latencies. -/
structure EngSt where
  db : Db
  ctx : Ctx
  summary : RunSummary
  lastResult : Option ToolResult
  tss : List String
  lats : List Int

/-- Model of engine._log_event: build a fully populated LogEntry (drawing
the timestamp from the oracle stream) and hand it to write_log. -/
def log_event (st : EngSt) (node_id decision tool_name : String)
    (latency_ms : Int) (error : Option String) : EngSt :=
  { st with
      db := write_log st.db ⟨st.tss.headD "", st.ctx.run_id, st.ctx.saw_id,
        node_id, tool_name, decision, latency_ms, error⟩,
      tss := st.tss.tail }

/-- The exact unsupported-branching message of engine._build_graph. -/
def branchMsg (src : String) : String :=
  "Node \x27" ++ src ++ "\x27 has >1 outgoing edge. Branching graphs are not supported in V1."

/-- Model of the adjacency construction of engine._build_graph: one
outgoing edge per node, raising NotImplementedError on a duplicate source. -/
def buildAdjAux (adj : List (String × String)) :
    List Edge → Except EngErr (List (String × String))
  | [] => .ok adj
  | e :: es =>
      if adj.any (fun p => decide (p.1 = e.src)) then
        .error (.notImplemented (branchMsg e.src))
      else buildAdjAux (adj ++ [(e.src, e.dst)]) es

/-- One step of the `{n["id"]: n for n in nodes}` dict comprehension:
replace an existing binding or append. -/
def upsertNode (acc : List Node) (n : Node) : List Node :=
  if acc.any (fun m => decide (m.id = n.id)) then
    acc.map (fun m => if m.id = n.id then n else m)
  else acc ++ [n]

/-- The node map of engine._build_graph, as a list with unique ids in
first-insertion order, later duplicates overwriting. -/
def nodeMapOf (nodes : List Node) : List Node := nodes.foldl upsertNode []

/-- `node_map[current_id]`. -/
def lookupNode (nm : List Node) (nid : String) : Option Node :=
  List.find? (fun n => decide (n.id = nid)) nm

/-- `adjacency.get(current_id)`. -/
def adjLookup (adj : List (String × String)) (nid : String) : Option String :=
  ((List.find? (fun p => decide (p.1 = nid)) adj)).map (fun p => p.2)

/-- Model of engine._find_start_node: exactly one start node or ValueError. -/
def findStart (nm : List Node) : Except EngErr String :=
  match (nm.filter (fun n => decide (n.type = "start"))).map Node.id with
  | [s] => .ok s
  | starts => .error (.valueError ("Expected exactly 1 start node, found " ++
      toString starts.length ++ ": " ++ pyStrList starts))

/-- The strict identity test `ctx.state.get("_approval_granted") is True`:
only the boolean true passes; absence and every other value fail. -/
def approvalGranted : Option Value → Bool
  | some (.bool true) => true
  | _ => false

/-- `ctx.state.get("_approval_wait_ms", 0.0)`, in hundredths; a non-numeric
wait would raise in the source before being observable and is outside this
model. -/
def approvalWait : Option Value → Int
  | some (.num n) => n
  | _ => 0

/-- Model of engine._handle_approval_gate: approval requires the state key
_approval_granted to hold strictly the boolean true; the wait defaults
to 0. -/
def handle_approval_gate (ctx : Ctx) : Bool × Int × Option String :=
  if approvalGranted (stateGet ctx.state "_approval_granted") then
    (true, approvalWait (stateGet ctx.state "_approval_wait_ms"), none)
  else
    (false, approvalWait (stateGet ctx.state "_approval_wait_ms"),
     some "Approval not provided")

/-- The exact missing-tool message of engine._execute_tool_node. -/
def toolNotFoundMsg (tool_name : String) : String :=
  "Tool \x27" ++ tool_name ++ "\x27 not found in TOOL_REGISTRY"

/-- The policy-denied error message of engine._execute_tool_node. -/
def policyDeniedMsg (reasons : List String) : String :=
  "Policy denied: " ++ String.intercalate "; " reasons

/-- The registry-resolution and execution tail of engine._execute_tool_node:
look the tool up, execute it drawing the measured (already rounded) latency
from the oracle stream, and log the outcome. -/
def executeResolved (reg : Registry) (tool_name node_id : String)
    (tool_inputs : Value) (st : EngSt) : (ToolResult × Int) × EngSt :=
  match regLookup reg tool_name with
  | none =>
      let st2 := log_event st node_id "deny" tool_name 0
        (some (toolNotFoundMsg tool_name))
      ((⟨tool_name, false, .dict [], some (toolNotFoundMsg tool_name)⟩, 0), st2)
  | some f =>
      let result := f tool_inputs st.ctx
      let latency := st.lats.headD 0
      let st2 := log_event { st with lats := st.lats.tail } node_id "allow"
        tool_name latency result.error
      ((result, latency), st2)

/-- The tool inputs resolved from accumulated state:
`ctx.state.get(f"_inputs_{node_id}", {})`. -/
def toolInputsOf (st : EngSt) (node_id : String) : Value :=
  (stateGet st.ctx.state ("_inputs_" ++ node_id)).getD (.dict [])

/-- The failure envelope engine._execute_tool_node returns on a deny. -/
def denyToolResult (tool_name error_msg : String) : ToolResult :=
  ⟨tool_name, false, .dict [], some error_msg⟩

/-- Model of engine._execute_tool_node: policy check (skipped for infra
tools), then registry resolution and execution, logging each outcome.
The KeyError of a tool_call node without a tool key is surfaced as an
exception. -/
def execute_tool_node (reg : Registry) (policy : Policy) (node : Node)
    (st : EngSt) : Except EngErr ((ToolResult × Int) × EngSt) :=
  match node.tool with
  | none => .error (.keyError "tool")
  | some tool_name =>
      if tool_name ∈ INFRA_TOOLS then
        .ok (executeResolved reg tool_name node.id (toolInputsOf st node.id) st)
      else
        match policy_check tool_name (toolInputsOf st node.id) st.ctx
            node.write_action policy with
        | ⟨.deny, _, reasons⟩ =>
            .ok ((denyToolResult tool_name (policyDeniedMsg reasons), 0),
              log_event st node.id "deny" tool_name 0
                (some (policyDeniedMsg reasons)))
        | ⟨.allow, _, _⟩ =>
            .ok (executeResolved reg tool_name node.id (toolInputsOf st node.id) st)

/-- The missing-edge message of the advance step of engine.run_saw. -/
def noEdgeMsg (current : String) : String :=
  "No outgoing edge from node \x27" ++ current ++ "\x27"

/-- The unknown-node-type message of engine.run_saw. -/
def unknownTypeMsg (node_type current : String) : String :=
  "Unknown node type \x27" ++ node_type ++ "\x27 at node \x27" ++ current ++ "\x27"

/-- The state after `ctx.state[f"_inputs_{current}"] = resolver(...)`. -/
def stashInputs (resolver : String → Node → Ctx → Value) (current : String)
    (node : Node) (st : EngSt) : EngSt :=
  { st with ctx := { st.ctx with
      state := stateSet st.ctx.state ("_inputs_" ++ current)
        (resolver current node st.ctx) } }

/-- The final_outputs an end node settles on: the data of the last
successful tool result, if any. -/
def endFinals (st2 : EngSt) : Value :=
  match st2.lastResult with
  | some r => if r.success then r.data else st2.summary.final_outputs
  | none => st2.summary.final_outputs

/-- The state an end node leaves: status completed, final outputs fixed. -/
def endStep (st2 : EngSt) : EngSt :=
  { st2 with summary := { st2.summary with
      status := "completed", final_outputs := endFinals st2 } }

/-- Add the observed approval wait to the human accumulator. -/
def gateWaitSt (st : EngSt) (w : Int) : EngSt :=
  { st with summary := { st.summary with
      human_wait_time_ms := st.summary.human_wait_time_ms + w } }

/-- `deny_reason or "Approval denied"` of the gate-deny exit. -/
def gateDenialReason (e : Option String) : String :=
  match e with
  | some m => if m = "" then "Approval denied" else m
  | none => "Approval denied"

/-- The summary fields a gate deny sets before exiting. -/
def gateDenySt (st3 : EngSt) (e : Option String) : EngSt :=
  { st3 with summary := { st3.summary with
      status := "denied", denial_reason := some (gateDenialReason e) } }

/-- `summary.node_results[current] = ...` after a tool node executes. -/
def toolNodeResults (st2 : EngSt) (current : String) (result : ToolResult) :
    EngSt :=
  { st2 with summary := { st2.summary with
      node_results := (stateSet st2.summary.node_results current
        (if result.success then result.data
         else match result.error with
           | some e => .str e
           | none => .null)) } }

/-- The state after a successful tool node: stash the data, remember the
result, add the measured latency to the system accumulator. -/
def toolSuccessSt (st3 : EngSt) (current : String) (result : ToolResult)
    (latency : Int) : EngSt :=
  { st3 with
      ctx := { st3.ctx with
        state := (stateSet st3.ctx.state current result.data) },
      lastResult := some result,
      summary := { st3.summary with
        system_time_ms := st3.summary.system_time_ms + latency } }

/-- The summary fields a failed or denied tool node sets before exiting. -/
def toolFailSt (st3 : EngSt) (result : ToolResult) : EngSt :=
  { st3 with summary := { st3.summary with
      status := "denied", denial_reason := result.error } }

/-- One iteration body of the walk loop of engine.run_saw, for the node at
`current`.  Returns true to advance to the successor, false on break, or an
exception. -/
def runStep (policy : Policy) (resolver : String → Node → Ctx → Value)
    (reg : Registry) (node : Node) (current : String) (st : EngSt) :
    (Except EngErr Bool) × EngSt :=
  if node.type = "start" then
    (.ok true, log_event st current "allow" "" 0 none)
  else if node.type = "end" then
    (.ok false, endStep (log_event st current "allow" "" 0 none))
  else if node.type = "approval_gate" then
    if (handle_approval_gate st.ctx).1 then
      (.ok true, log_event
        (gateWaitSt st (handle_approval_gate st.ctx).2.1) current "allow" ""
        (handle_approval_gate st.ctx).2.1 (handle_approval_gate st.ctx).2.2)
    else
      (.ok false, gateDenySt
        (log_event (gateWaitSt st (handle_approval_gate st.ctx).2.1) current
          "deny" "" (handle_approval_gate st.ctx).2.1
          (handle_approval_gate st.ctx).2.2)
        (handle_approval_gate st.ctx).2.2)
  else if node.type = "tool_call" then
    match execute_tool_node reg policy node
        (stashInputs resolver current node st) with
    | .error e => (.error e, stashInputs resolver current node st)
    | .ok ((result, latency), st2) =>
        if result.success then
          (.ok true, toolSuccessSt (toolNodeResults st2 current result)
            current result latency)
        else
          (.ok false, toolFailSt (toolNodeResults st2 current result) result)
  else
    (.error (.valueError (unknownTypeMsg node.type current)), st)

/-- The walk loop of engine.run_saw.  The fuel is structural; the caller
passes one more than the edge count, which a linear walk can never exhaust,
and exhaustion marks the nontermination a cyclic adjacency causes in the
source. -/
def runLoop (nm : List Node) (adj : List (String × String)) (policy : Policy)
    (resolver : String → Node → Ctx → Value) (reg : Registry) :
    Nat → String → EngSt → (Except EngErr Unit) × EngSt
  | 0, _, st => (.error .outOfFuel, st)
  | fuel + 1, current, st =>
      match lookupNode nm current with
      | none => (.error (.keyError current), st)
      | some node =>
          match runStep policy resolver reg node current st with
          | (.error e, st2) => (.error e, st2)
          | (.ok false, st2) => (.ok (), st2)
          | (.ok true, st2) =>
              match adjLookup adj current with
              | none =>
                  if node.type = "end" then (.ok (), st2)
                  else (.ok (), { st2 with summary := { st2.summary with
                      status := "error",
                      denial_reason := some (noEdgeMsg current) } })
              | some nxt => runLoop nm adj policy resolver reg fuel nxt st2

/-- Model of engine.run_saw: build the graph (branching raises before
anything is written), extract the policy, find the start node, walk, and
round up the totals.  Times are exact in hundredths, so the final 2-decimal
rounding is the identity. -/
def initialEngSt (ctx : Ctx) (db : Db) (tss : List String)
    (lats : List Int) : EngSt :=
  ⟨db, ctx, ⟨ctx.run_id, ctx.saw_id, "running", 0, 0, 0, [], .dict [], none⟩,
   none, tss, lats⟩

def run_saw (spec : SawSpec) (ctx : Ctx) (db : Db)
    (resolver : String → Node → Ctx → Value) (reg : Registry)
    (tss : List String) (lats : List Int) :
    (Except EngErr RunSummary) × Db :=
  match buildAdjAux [] spec.edges with
  | .error e => (.error e, db)
  | .ok adj =>
      match findStart (nodeMapOf spec.nodes) with
      | .error e => (.error e, db)
      | .ok start_id =>
          match runLoop (nodeMapOf spec.nodes) adj (policy_from_spec spec)
              resolver reg (spec.edges.length + 1) start_id
              (initialEngSt ctx db tss lats) with
          | (.error e, st) => (.error e, st.db)
          | (.ok _, st) =>
              (.ok { st.summary with
                total_time_ms := st.summary.system_time_ms +
                  st.summary.human_wait_time_ms }, st.db)

/- ───────────────────────────── claim C9 ───────────────────────────── -/

theorem buildAdj_hit (es : List Edge) :
    ∀ (adj : List (String × String)) (e2 : Edge), e2 ∈ es →
      adj.any (fun p => decide (p.1 = e2.src)) = true →
      ∃ m, buildAdjAux adj es = .error (.notImplemented m) := by
  induction es with
  | nil => intro adj e2 hm; cases hm
  | cons e rest ih =>
      intro adj e2 hm hany
      rw [buildAdjAux]
      by_cases hdup : adj.any (fun p => decide (p.1 = e.src)) = true
      · rw [if_pos hdup]
        exact ⟨branchMsg e.src, rfl⟩
      · rw [if_neg hdup]
        rcases List.mem_cons.mp hm with hm | hm
        · rw [hm] at hany
          exact absurd hany hdup
        · refine ih (adj ++ [(e.src, e.dst)]) e2 hm ?_
          rw [List.any_append, hany, Bool.true_or]

theorem buildAdj_dup : ∀ (es : List Edge), ¬ (es.map Edge.src).Nodup →
    ∀ (adj : List (String × String)),
      ∃ m, buildAdjAux adj es = .error (.notImplemented m) := by
  intro es
  induction es with
  | nil => intro hdup; exact absurd List.nodup_nil hdup
  | cons e rest ih =>
      intro hdup adj
      rw [buildAdjAux]
      by_cases hany : adj.any (fun p => decide (p.1 = e.src)) = true
      · rw [if_pos hany]
        exact ⟨branchMsg e.src, rfl⟩
      · rw [if_neg hany]
        rw [List.map_cons, List.nodup_cons] at hdup
        push_neg at hdup
        by_cases hmem : e.src ∈ rest.map Edge.src
        · rcases List.mem_map.mp hmem with ⟨e2, he2, hsrc⟩
          refine buildAdj_hit rest (adj ++ [(e.src, e.dst)]) e2 he2 ?_
          rw [List.any_append]
          have : decide (((e.src, e.dst)).1 = e2.src) = true := by
            rw [decide_eq_true_eq]
            exact hsrc.symm
          simp [List.any_cons, this]
        · exact ih (fun hnd => (hdup hmem) hnd) (adj ++ [(e.src, e.dst)])

/-- Claim C9: for every spec whose graph has a node with more than one
outgoing edge (a duplicated edge source), run_saw fails with the
non-recoverable NotImplementedError of graph validation before any ledger
row is written: the database it returns is exactly the one it received. -/
theorem c9_branching_rejected_before_ledger (spec : SawSpec) (ctx : Ctx)
    (db : Db) (resolver : String → Node → Ctx → Value) (reg : Registry)
    (tss : List String) (lats : List Int)
    (hdup : ¬ (spec.edges.map Edge.src).Nodup) :
    ∃ m, run_saw spec ctx db resolver reg tss lats =
      (.error (.notImplemented m), db) := by
  obtain ⟨m, hm⟩ := buildAdj_dup spec.edges hdup []
  refine ⟨m, ?_⟩
  unfold run_saw
  rw [hm]

/-- A policy bundle for engine witnesses. -/
def demoBundle : PolicyBundle :=
  ⟨"p1", "medium", ["tool_a"], [], ⟨false, [], false, false⟩, []⟩

/-- A spec with a second outgoing edge from the tool node. -/
def branchSpec : SawSpec :=
  ⟨"saw1",
   [⟨"n_start", "start", none, false⟩,
    ⟨"n_a", "tool_call", some "tool_a", false⟩,
    ⟨"n_end", "end", none, false⟩],
   [⟨"n_start", "n_a"⟩, ⟨"n_a", "n_end"⟩, ⟨"n_a", "n_end"⟩],
   demoBundle⟩

/-- Witness for C9: the concrete branching spec is rejected with the
database untouched. -/
theorem c9_witness :
    ¬ (branchSpec.edges.map Edge.src).Nodup ∧
    (∃ m, run_saw branchSpec wCtx emptyDb (fun _ _ _ => .dict []) [] [] [] =
      (.error (.notImplemented m), emptyDb)) :=
  ⟨by decide,
   c9_branching_rejected_before_ledger branchSpec wCtx emptyDb _ [] [] []
     (by decide)⟩

/- ───────────────────────────── claim C8 ───────────────────────────── -/

theorem write_log_runs (db : Db) (e : LogEntry) :
    (write_log db e).runs = db.runs := rfl

theorem executeResolved_runs (reg : Registry) (tn nid : String) (ti : Value)
    (st : EngSt) :
    ((executeResolved reg tn nid ti st).2).db.runs = st.db.runs := by
  unfold executeResolved
  cases hr : regLookup reg tn with
  | none => rfl
  | some f => rfl

theorem execute_tool_node_runs (reg : Registry) (policy : Policy) (node : Node)
    (st : EngSt) (res : ToolResult) (lat : Int) (st2 : EngSt)
    (h : execute_tool_node reg policy node st = .ok ((res, lat), st2)) :
    st2.db.runs = st.db.runs := by
  unfold execute_tool_node at h
  split at h
  · cases h
  · split at h
    · injection h with h4
      have h5 : _ = st2 := congrArg Prod.snd h4
      rw [← h5]
      exact executeResolved_runs _ _ _ _ _
    · split at h
      · injection h with h4
        have h5 : _ = st2 := congrArg Prod.snd h4
        rw [← h5]
        rfl
      · injection h with h4
        have h5 : _ = st2 := congrArg Prod.snd h4
        rw [← h5]
        exact executeResolved_runs _ _ _ _ _

theorem runStep_runs (policy : Policy) (resolver : String → Node → Ctx → Value)
    (reg : Registry) (node : Node) (current : String) (st : EngSt) :
    ((runStep policy resolver reg node current st).2).db.runs = st.db.runs := by
  unfold runStep
  by_cases h1 : node.type = "start"
  · rw [if_pos h1]
    rfl
  · rw [if_neg h1]
    by_cases h2 : node.type = "end"
    · rw [if_pos h2]
      cases (log_event st current "allow" "" 0 none).lastResult with
      | none => rfl
      | some r => cases r.success <;> rfl
    · rw [if_neg h2]
      by_cases h3 : node.type = "approval_gate"
      · rw [if_pos h3]
        rcases hg : handle_approval_gate st.ctx with ⟨ap, wait, err⟩
        cases ap <;> rfl
      · rw [if_neg h3]
        by_cases h4 : node.type = "tool_call"
        · rw [if_pos h4]
          split
          · rfl
          · rename_i result latency st2 heq
            have hruns := execute_tool_node_runs _ _ _
              (stashInputs resolver current node st) _ _ _ heq
            cases hs : result.success
            · exact hruns
            · exact hruns
        · rw [if_neg h4]

theorem runStep_runs2 (policy : Policy)
    (resolver : String → Node → Ctx → Value) (reg : Registry) (node : Node)
    (current : String) (st : EngSt) (out : Except EngErr Bool) (st2 : EngSt)
    (h : runStep policy resolver reg node current st = (out, st2)) :
    st2.db.runs = st.db.runs := by
  have hr := runStep_runs policy resolver reg node current st
  rw [h] at hr
  exact hr

theorem runLoop_runs (nm : List Node) (adj : List (String × String))
    (policy : Policy) (resolver : String → Node → Ctx → Value)
    (reg : Registry) :
    ∀ (fuel : Nat) (current : String) (st : EngSt),
      ((runLoop nm adj policy resolver reg fuel current st).2).db.runs =
        st.db.runs := by
  intro fuel
  induction fuel with
  | zero => intro current st; rfl
  | succ n ih =>
      intro current st
      rw [runLoop]
      split
      · rfl
      · split
        · rename_i e st2 heq
          exact runStep_runs2 _ _ _ _ _ _ _ _ heq
        · rename_i st2 heq
          exact runStep_runs2 _ _ _ _ _ _ _ _ heq
        · rename_i st2 heq
          have hr := runStep_runs2 _ _ _ _ _ _ _ _ heq
          split
          · split
            · exact hr
            · exact hr
          · rename_i nxt hadj
            rw [ih nxt st2]
            exact hr

/-- Claim C8 (code evaluated against the claim): run_saw never touches the
runs table — it opens no running row, stores no policy snapshot or hash,
and updates no status or approval fields on close; the runs table after any
run equals the one before.  The helpers upsert_run_start,
update_run_status and update_run_approval exist in the logger but have no
caller. -/
theorem runLoop_runs2 (nm : List Node) (adj : List (String × String))
    (policy : Policy) (resolver : String → Node → Ctx → Value)
    (reg : Registry) (fuel : Nat) (current : String) (st : EngSt)
    (out : Except EngErr Unit) (st2 : EngSt)
    (h : runLoop nm adj policy resolver reg fuel current st = (out, st2)) :
    st2.db.runs = st.db.runs := by
  have hr := runLoop_runs nm adj policy resolver reg fuel current st
  rw [h] at hr
  exact hr

theorem c8_run_record_never_written (spec : SawSpec) (ctx : Ctx) (db : Db)
    (resolver : String → Node → Ctx → Value) (reg : Registry)
    (tss : List String) (lats : List Int) :
    ((run_saw spec ctx db resolver reg tss lats).2).runs = db.runs := by
  unfold run_saw
  split
  · rfl
  · split
    · rfl
    · split
      · rename_i e st heq
        exact runLoop_runs2 _ _ _ _ _ _ _ _ _ _ heq
      · rename_i st heq
        exact runLoop_runs2 _ _ _ _ _ _ _ _ _ _ heq

/- ───────────────────────────── claim C6 ───────────────────────────── -/

theorem approvalGranted_false {ov : Option Value}
    (h : ov ≠ some (.bool true)) : approvalGranted ov = false := by
  match ov with
  | none => rfl
  | some (.bool true) => exact absurd rfl h
  | some (.bool false) => rfl
  | some .null => rfl
  | some (.num n) => rfl
  | some (.str s) => rfl
  | some (.dict es) => rfl
  | some (.list xs) => rfl

theorem approvalWait_eq {ctx : Ctx} {w : Int}
    (hw : stateGet ctx.state "_approval_wait_ms" = some (.num w) ∨
      (stateGet ctx.state "_approval_wait_ms" = none ∧ w = 0)) :
    approvalWait (stateGet ctx.state "_approval_wait_ms") = w := by
  rcases hw with hw | ⟨hw, hw0⟩
  · rw [hw]
    rfl
  · rw [hw, hw0]
    rfl

theorem lookupNode_id {nm : List Node} {nid : String} {node : Node}
    (h : lookupNode nm nid = some node) : node.id = nid := by
  have h2 := List.find?_some h
  simpa using h2

theorem runLoop_succ_break (nm : List Node) (adj : List (String × String))
    (policy : Policy) (resolver : String → Node → Ctx → Value)
    (reg : Registry) (fuel : Nat) (current : String) (st : EngSt)
    (node : Node) (st2 : EngSt)
    (hnode : lookupNode nm current = some node)
    (hstep : runStep policy resolver reg node current st = (.ok false, st2)) :
    runLoop nm adj policy resolver reg (fuel + 1) current st = (.ok (), st2) := by
  rw [runLoop]
  split
  · rename_i heqn
    rw [hnode] at heqn
    cases heqn
  · rename_i node2 heqn
    rw [hnode] at heqn
    injection heqn with heqn
    subst heqn
    split
    · rename_i e st3 heq
      rw [hstep] at heq
      simp at heq
    · rename_i st3 heq
      rw [hstep] at heq
      simp only [Prod.mk.injEq] at heq
      rw [heq.2]
    · rename_i st3 heq
      rw [hstep] at heq
      simp at heq

theorem runLoop_succ_advance (nm : List Node) (adj : List (String × String))
    (policy : Policy) (resolver : String → Node → Ctx → Value)
    (reg : Registry) (fuel : Nat) (current : String) (st : EngSt)
    (node : Node) (st2 : EngSt) (nxt : String)
    (hnode : lookupNode nm current = some node)
    (hstep : runStep policy resolver reg node current st = (.ok true, st2))
    (hadj : adjLookup adj current = some nxt) :
    runLoop nm adj policy resolver reg (fuel + 1) current st =
      runLoop nm adj policy resolver reg fuel nxt st2 := by
  rw [runLoop]
  split
  · rename_i heqn
    rw [hnode] at heqn
    cases heqn
  · rename_i node2 heqn
    rw [hnode] at heqn
    injection heqn with heqn
    subst heqn
    split
    · rename_i e st3 heq
      rw [hstep] at heq
      simp at heq
    · rename_i st3 heq
      rw [hstep] at heq
      simp at heq
    · rename_i st3 heq
      rw [hstep] at heq
      simp only [Prod.mk.injEq] at heq
      split
      · rename_i heqa
        rw [hadj] at heqa
        cases heqa
      · rename_i nxt2 heqa
        rw [hadj] at heqa
        injection heqa with heqa
        subst heqa
        rw [heq.2]

/-- Claim C6: an approval_gate node is passed if and only if the state key
_approval_granted holds strictly the boolean true (part one: on pass the
walk appends one allow row whose latency_ms is the observed wait and
advances).  When the key is absent or holds any other value (part two) the
engine appends exactly one deny row with that latency and error "Approval
not provided", sets status denied with that denial_reason, adds the wait to
human_wait_time_ms, and halts without writing an entry for any subsequent
node. -/
theorem c6_approval_gate_strict (nm : List Node) (adj : List (String × String))
    (policy : Policy) (resolver : String → Node → Ctx → Value)
    (reg : Registry) (fuel : Nat) (current nxt : String) (st : EngSt)
    (node : Node) (w : Int)
    (hnode : lookupNode nm current = some node)
    (htype : node.type = "approval_gate")
    (hw : stateGet st.ctx.state "_approval_wait_ms" = some (.num w) ∨
      (stateGet st.ctx.state "_approval_wait_ms" = none ∧ w = 0)) :
    (stateGet st.ctx.state "_approval_granted" = some (.bool true) →
      adjLookup adj current = some nxt →
      ∃ stPass,
        runLoop nm adj policy resolver reg (fuel + 1) current st =
          runLoop nm adj policy resolver reg fuel nxt stPass ∧
        (∃ row, stPass.db.rows = st.db.rows ++ [row] ∧
          row.node_id = current ∧ row.decision = "allow" ∧
          row.latency_ms = w) ∧
        stPass.summary.human_wait_time_ms =
          st.summary.human_wait_time_ms + w ∧
        stPass.summary.status = st.summary.status) ∧
    (stateGet st.ctx.state "_approval_granted" ≠ some (.bool true) →
      ∃ stEnd,
        runLoop nm adj policy resolver reg (fuel + 1) current st =
          (.ok (), stEnd) ∧
        (∃ row, stEnd.db.rows = st.db.rows ++ [row] ∧
          row.node_id = current ∧ row.decision = "deny" ∧
          row.latency_ms = w ∧ row.error = some "Approval not provided") ∧
        stEnd.summary.status = "denied" ∧
        stEnd.summary.denial_reason = some "Approval not provided" ∧
        stEnd.summary.human_wait_time_ms =
          st.summary.human_wait_time_ms + w) := by
  have hne1 : ¬ node.type = "start" := by
    rw [htype]
    decide
  have hne2 : ¬ node.type = "end" := by
    rw [htype]
    decide
  have hwait := approvalWait_eq hw
  constructor
  · intro hg hadj
    have hgate : handle_approval_gate st.ctx = (true, w, none) := by
      unfold handle_approval_gate
      rw [hwait, hg]
      rfl
    have hstep : runStep policy resolver reg node current st =
        (.ok true, log_event { st with summary := { st.summary with
            human_wait_time_ms := st.summary.human_wait_time_ms + w } }
          current "allow" "" w none) := by
      unfold runStep
      rw [if_neg hne1, if_neg hne2, if_pos htype, hgate]
      rfl
    exact ⟨_, runLoop_succ_advance nm adj policy resolver reg fuel current st
        node _ nxt hnode hstep hadj, ⟨_, rfl, rfl, rfl, rfl⟩, rfl, rfl⟩
  · intro hng
    have hgate : handle_approval_gate st.ctx =
        (false, w, some "Approval not provided") := by
      unfold handle_approval_gate
      rw [hwait, approvalGranted_false hng]
      rfl
    have hstep : runStep policy resolver reg node current st =
        (.ok false,
         { st with
             db := write_log st.db ⟨st.tss.headD "", st.ctx.run_id,
               st.ctx.saw_id, current, "", "deny", w,
               some "Approval not provided"⟩,
             tss := st.tss.tail,
             summary := { st.summary with
               human_wait_time_ms := st.summary.human_wait_time_ms + w,
               status := "denied",
               denial_reason := some "Approval not provided" } }) := by
      unfold runStep
      rw [if_neg hne1, if_neg hne2, if_pos htype, hgate]
      rfl
    exact ⟨_, runLoop_succ_break nm adj policy resolver reg fuel current st
        node _ hnode hstep, ⟨_, rfl, rfl, rfl, rfl, rfl⟩, rfl, rfl, rfl⟩

def apNode : Node := ⟨"n_approval", "approval_gate", none, false⟩

def apCtxPass : Ctx :=
  ⟨"r_ap", "saw_ap", "pol", "t0", "op", "boss",
   [("_approval_granted", .bool true), ("_approval_wait_ms", .num 9500000)]⟩

def apCtxDeny : Ctx :=
  ⟨"r_ap2", "saw_ap", "pol", "t0", "op", "boss",
   [("_approval_granted", .bool false)]⟩

def apStPass : EngSt := initialEngSt apCtxPass emptyDb ["2025-01-01T00:00:00"] []

def apStDeny : EngSt := initialEngSt apCtxDeny emptyDb ["2025-01-01T00:00:00"] []

theorem c6_witness :
    (∃ stPass,
      runLoop [apNode] [("n_approval", "n_end")] DEFAULT_POLICY
          (fun _ _ _ => .dict []) [] 2 "n_approval" apStPass =
        runLoop [apNode] [("n_approval", "n_end")] DEFAULT_POLICY
          (fun _ _ _ => .dict []) [] 1 "n_end" stPass ∧
      (∃ row, stPass.db.rows = apStPass.db.rows ++ [row] ∧
        row.node_id = "n_approval" ∧ row.decision = "allow" ∧
        row.latency_ms = 9500000) ∧
      stPass.summary.human_wait_time_ms =
        apStPass.summary.human_wait_time_ms + 9500000 ∧
      stPass.summary.status = apStPass.summary.status) ∧
    (∃ stEnd,
      runLoop [apNode] [] DEFAULT_POLICY (fun _ _ _ => .dict []) [] 2
          "n_approval" apStDeny = (.ok (), stEnd) ∧
      (∃ row, stEnd.db.rows = apStDeny.db.rows ++ [row] ∧
        row.node_id = "n_approval" ∧ row.decision = "deny" ∧
        row.latency_ms = 0 ∧ row.error = some "Approval not provided") ∧
      stEnd.summary.status = "denied" ∧
      stEnd.summary.denial_reason = some "Approval not provided" ∧
      stEnd.summary.human_wait_time_ms =
        apStDeny.summary.human_wait_time_ms + 0) :=
  ⟨(c6_approval_gate_strict [apNode] [("n_approval", "n_end")] DEFAULT_POLICY
      (fun _ _ _ => .dict []) [] 1 "n_approval" "n_end" apStPass apNode
      9500000 rfl rfl (Or.inl rfl)).1 rfl rfl,
   (c6_approval_gate_strict [apNode] [] DEFAULT_POLICY
      (fun _ _ _ => .dict []) [] 1 "n_approval" "n_end" apStDeny apNode
      0 rfl rfl (Or.inr ⟨rfl, rfl⟩)).2
     (fun h => Bool.noConfusion (Value.bool.inj (Option.some.inj h)))⟩

/- ───────────────────── claim C5: the engine-level deny ───────────────────── -/

theorem stateGet_cons_eq {e : String × Value} {es : List (String × Value)}
    {k : String} (h : e.1 = k) : stateGet (e :: es) k = some e.2 := by
  unfold stateGet
  rw [List.find?_cons_of_pos]
  · rfl
  · simpa using h

theorem stateGet_cons_ne {e : String × Value} {es : List (String × Value)}
    {k : String} (h : ¬ e.1 = k) : stateGet (e :: es) k = stateGet es k := by
  unfold stateGet
  rw [List.find?_cons_of_neg]
  simpa using h

theorem stateGet_stateSet_same (s : List (String × Value)) (k : String)
    (v : Value) : stateGet (stateSet s k v) k = some v := by
  induction s with
  | nil =>
      show stateGet [(k, v)] k = some v
      exact stateGet_cons_eq rfl
  | cons e es ih =>
      by_cases hek : e.1 = k
      · have hany : (e :: es).any (fun x => decide (x.1 = k)) = true := by
          simp [List.any_cons, hek]
        unfold stateSet
        rw [if_pos hany]
        show stateGet ((if e.1 = k then (k, v) else e) ::
          es.map (fun x => if x.1 = k then (k, v) else x)) k = some v
        rw [if_pos hek]
        exact stateGet_cons_eq rfl
      · by_cases ha : es.any (fun x => decide (x.1 = k)) = true
        · have hany : (e :: es).any (fun x => decide (x.1 = k)) = true := by
            simp [List.any_cons, ha]
          unfold stateSet
          rw [if_pos hany]
          show stateGet ((if e.1 = k then (k, v) else e) ::
            es.map (fun x => if x.1 = k then (k, v) else x)) k = some v
          rw [if_neg hek, stateGet_cons_ne hek]
          have ih2 := ih
          unfold stateSet at ih2
          rw [if_pos ha] at ih2
          exact ih2
        · have hany : ¬ (e :: es).any (fun x => decide (x.1 = k)) = true := by
            simp only [List.any_cons, Bool.or_eq_true, decide_eq_true_eq]
            push_neg
            exact ⟨hek, fun hc => ha hc⟩
          unfold stateSet
          rw [if_neg hany]
          show stateGet (e :: (es ++ [(k, v)])) k = some v
          rw [stateGet_cons_ne hek]
          have ih2 := ih
          unfold stateSet at ih2
          rw [if_neg ha] at ih2
          exact ih2

/-- Claim C5 (amended): at a tool_call node whose tool is a write action
with a write_restrictions entry, is not an infra tool, and passes the
earlier denylist, allowlist and egress gates, a resolved template_id
outside the allowed list makes policy_check deny with the template reason
among its reasons; the engine then appends exactly one deny ledger row for
that node with latency_ms 0 and the policy-denied error carrying that
reason, sets status denied, and the walk halts with no entry for any later
node. -/
theorem c5_write_restriction_denies (nm : List Node)
    (adj : List (String × String)) (policy : Policy)
    (resolver : String → Node → Ctx → Value) (reg : Registry) (fuel : Nat)
    (current : String) (st : EngSt) (node : Node) (tool : String)
    (wr : WriteRestriction)
    (hnode : lookupNode nm current = some node)
    (htype : node.type = "tool_call")
    (htool : node.tool = some tool)
    (hwrite : node.write_action = true)
    (hinfra : tool ∉ INFRA_TOOLS)
    (hden : tool ∉ policy.tool_denylist)
    (hall : tool ∈ policy.tool_allowlist)
    (hegr : egressReasons tool policy.egress = [])
    (hwr : lookupWR policy.write_restrictions tool = some wr)
    (htid : templateIn ((vGet (resolver current node st.ctx)
        "template_id").getD (.str "")) wr.allowed_template_ids = false) :
    ∃ stEnd row,
      runLoop nm adj policy resolver reg (fuel + 1) current st =
        (.ok (), stEnd) ∧
      policy_check tool (resolver current node st.ctx) st.ctx true policy =
        ⟨.deny, tool, writeReasons (resolver current node st.ctx) wr⟩ ∧
      templateMsg ((vGet (resolver current node st.ctx)
          "template_id").getD (.str "")) wr.allowed_template_ids ∈
        writeReasons (resolver current node st.ctx) wr ∧
      stEnd.db.rows = st.db.rows ++ [row] ∧
      row.node_id = current ∧
      row.decision = "deny" ∧
      row.tool_name = tool ∧
      row.latency_ms = 0 ∧
      row.error = some (policyDeniedMsg
        (writeReasons (resolver current node st.ctx) wr)) ∧
      stEnd.summary.status = "denied" ∧
      stEnd.summary.denial_reason = some (policyDeniedMsg
        (writeReasons (resolver current node st.ctx) wr)) := by
  have hid : node.id = current := lookupNode_id hnode
  have hne1 : ¬ node.type = "start" := by
    rw [htype]
    decide
  have hne2 : ¬ node.type = "end" := by
    rw [htype]
    decide
  have hne3 : ¬ node.type = "approval_gate" := by
    rw [htype]
    decide
  have hinputs : toolInputsOf (stashInputs resolver current node st) node.id =
      resolver current node st.ctx := by
    show (stateGet (stateSet st.ctx.state ("_inputs_" ++ current)
        (resolver current node st.ctx)) ("_inputs_" ++ node.id)).getD
        (.dict []) = resolver current node st.ctx
    rw [hid, stateGet_stateSet_same]
    rfl
  have hwrh : writeReasons (resolver current node st.ctx) wr =
      templateMsg ((vGet (resolver current node st.ctx)
          "template_id").getD (.str "")) wr.allowed_template_ids ::
      (if vTruthy ((vGet (resolver current node st.ctx)
            "create_new_deck").getD (.bool false)) = true ∧
          wr.allow_create_new_decks = false
       then [createMsg] else []) := by
    unfold writeReasons
    rw [if_pos htid]
    rfl
  have hwne : writeReasons (resolver current node st.ctx) wr ≠ [] := by
    rw [hwrh]
    exact List.cons_ne_nil _ _
  have hmem : templateMsg ((vGet (resolver current node st.ctx)
      "template_id").getD (.str "")) wr.allowed_template_ids ∈
      writeReasons (resolver current node st.ctx) wr := by
    rw [hwrh]
    exact List.mem_cons_self _ _
  have hwcr : writeCheckReasons true policy.write_restrictions tool
      (resolver current node st.ctx) =
      writeReasons (resolver current node st.ctx) wr := by
    unfold writeCheckReasons
    rw [hwr]
  have hpc : ∀ ctx2 : Ctx,
      policy_check tool (resolver current node st.ctx) ctx2 true policy =
      ⟨.deny, tool, writeReasons (resolver current node st.ctx) wr⟩ := by
    intro ctx2
    unfold policy_check
    rw [if_neg hden]
    rw [if_neg (not_not_intro hall)]
    rw [if_neg (not_not_intro hegr)]
    rw [hwcr, if_pos hwne]
  have hexec : execute_tool_node reg policy node
      (stashInputs resolver current node st) =
      .ok ((denyToolResult tool (policyDeniedMsg
          (writeReasons (resolver current node st.ctx) wr)), 0),
        log_event (stashInputs resolver current node st) node.id "deny" tool 0
          (some (policyDeniedMsg
            (writeReasons (resolver current node st.ctx) wr)))) := by
    unfold execute_tool_node
    split
    · rename_i heq
      rw [htool] at heq
      cases heq
    · rename_i tn heq
      rw [htool] at heq
      injection heq with heq
      subst heq
      rw [if_neg hinfra, hinputs, hwrite,
        hpc (stashInputs resolver current node st).ctx]
  have hstep : runStep policy resolver reg node current st =
      (.ok false,
       { st with
           ctx := { st.ctx with state := (stateSet st.ctx.state
             ("_inputs_" ++ current) (resolver current node st.ctx)) },
           db := (write_log st.db ⟨st.tss.headD "", st.ctx.run_id,
             st.ctx.saw_id, node.id, tool, "deny", 0,
             some (policyDeniedMsg
               (writeReasons (resolver current node st.ctx) wr))⟩),
           tss := st.tss.tail,
           summary := { st.summary with
             node_results := (stateSet st.summary.node_results current
               (.str (policyDeniedMsg
                 (writeReasons (resolver current node st.ctx) wr)))),
             status := "denied",
             denial_reason := some (policyDeniedMsg
               (writeReasons (resolver current node st.ctx) wr)) } }) := by
    unfold runStep
    rw [if_neg hne1, if_neg hne2, if_neg hne3, if_pos htype, hexec]
    rfl
  exact ⟨_, _, runLoop_succ_break nm adj policy resolver reg fuel current st
      node _ hnode hstep, hpc st.ctx, hmem, rfl, hid, rfl, rfl, rfl, rfl,
    rfl, rfl⟩

def wrSlides : WriteRestriction := ⟨["TEMPLATE_DECK_V1"], false⟩

def slidesNode : Node :=
  ⟨"n_update_slides", "tool_call", some "tool_slides_update_template", true⟩

def slidesCtx : Ctx :=
  ⟨"r_c5", "saw_bm", "policy_board_metrics_v1", "t0", "op", "boss", []⟩

def slidesSt : EngSt := initialEngSt slidesCtx emptyDb ["2025-01-01T00:00:05"] []

def rogueResolver : String → Node → Ctx → Value :=
  fun _ _ _ => .dict [("template_id", .str "ROGUE_TEMPLATE")]

theorem c5_witness :
    ∃ stEnd row,
      runLoop [slidesNode] [] DEFAULT_POLICY rogueResolver [] 3
          "n_update_slides" slidesSt = (.ok (), stEnd) ∧
      policy_check "tool_slides_update_template"
          (rogueResolver "n_update_slides" slidesNode slidesSt.ctx)
          slidesSt.ctx true DEFAULT_POLICY =
        ⟨.deny, "tool_slides_update_template",
         writeReasons (rogueResolver "n_update_slides" slidesNode
           slidesSt.ctx) wrSlides⟩ ∧
      templateMsg ((vGet (rogueResolver "n_update_slides" slidesNode
            slidesSt.ctx) "template_id").getD (.str ""))
          wrSlides.allowed_template_ids ∈
        writeReasons (rogueResolver "n_update_slides" slidesNode
          slidesSt.ctx) wrSlides ∧
      stEnd.db.rows = slidesSt.db.rows ++ [row] ∧
      row.node_id = "n_update_slides" ∧
      row.decision = "deny" ∧
      row.tool_name = "tool_slides_update_template" ∧
      row.latency_ms = 0 ∧
      row.error = some (policyDeniedMsg
        (writeReasons (rogueResolver "n_update_slides" slidesNode
          slidesSt.ctx) wrSlides)) ∧
      stEnd.summary.status = "denied" ∧
      stEnd.summary.denial_reason = some (policyDeniedMsg
        (writeReasons (rogueResolver "n_update_slides" slidesNode
          slidesSt.ctx) wrSlides)) :=
  c5_write_restriction_denies [slidesNode] [] DEFAULT_POLICY rogueResolver []
    2 "n_update_slides" slidesSt slidesNode "tool_slides_update_template"
    wrSlides rfl rfl rfl rfl (by decide) (by decide) (by decide) rfl rfl rfl

/- ───────────────────────────── claim C7 ───────────────────────────── -/

/-- A ledger row written at an approval_gate node, classified through the
node map of the spec that produced the run. -/
def isApprovalRow (nm : List Node) (row : LogRow) : Bool :=
  match lookupNode nm row.node_id with
  | some n => n.type = "approval_gate"
  | none => false

/-- Sum of latency_ms over a list of ledger rows. -/
def sumLat (rows : List LogRow) : Int := (rows.map LogRow.latency_ms).sum

/-- Sum of latency_ms over the approval-gate rows. -/
def sumApproval (nm : List Node) (rows : List LogRow) : Int :=
  sumLat (rows.filter (fun r => isApprovalRow nm r))

/-- Sum of latency_ms over the non-approval rows. -/
def sumSystem (nm : List Node) (rows : List LogRow) : Int :=
  sumLat (rows.filter (fun r => !(isApprovalRow nm r)))

theorem sumLat_nil : sumLat [] = 0 := rfl

theorem sumLat_cons (r : LogRow) (rows : List LogRow) :
    sumLat (r :: rows) = r.latency_ms + sumLat rows := by
  simp [sumLat]

theorem sumLat_append (a b : List LogRow) :
    sumLat (a ++ b) = sumLat a + sumLat b := by
  simp [sumLat]

theorem sumApproval_append (nm : List Node) (a b : List LogRow) :
    sumApproval nm (a ++ b) = sumApproval nm a + sumApproval nm b := by
  simp [sumApproval, List.filter_append, sumLat_append]

theorem sumSystem_append (nm : List Node) (a b : List LogRow) :
    sumSystem nm (a ++ b) = sumSystem nm a + sumSystem nm b := by
  simp [sumSystem, List.filter_append, sumLat_append]

theorem sumApproval_cons (nm : List Node) (r : LogRow) (rest : List LogRow) :
    sumApproval nm (r :: rest) =
      (if isApprovalRow nm r then r.latency_ms else 0) + sumApproval nm rest := by
  unfold sumApproval
  by_cases hc : isApprovalRow nm r = true
  · rw [List.filter_cons_of_pos (by simpa using hc), sumLat_cons, if_pos hc]
  · rw [List.filter_cons_of_neg (by simpa using hc), if_neg hc, zero_add]

theorem sumSystem_cons (nm : List Node) (r : LogRow) (rest : List LogRow) :
    sumSystem nm (r :: rest) =
      (if isApprovalRow nm r then 0 else r.latency_ms) + sumSystem nm rest := by
  unfold sumSystem
  by_cases hc : isApprovalRow nm r = true
  · rw [List.filter_cons_of_neg (by simp [hc]), if_pos hc, zero_add]
  · rw [List.filter_cons_of_pos (by simp [hc]), sumLat_cons, if_neg hc]

/-- Rows all written at one node sum entirely into the approval or the
system bucket according to that node type. -/
theorem sums_of_uniform (nm : List Node) (node : Node) (current : String)
    (hlook : lookupNode nm current = some node) :
    ∀ rows : List LogRow, (∀ r ∈ rows, r.node_id = current) →
      sumSystem nm rows =
        (if node.type = "approval_gate" then 0 else sumLat rows) ∧
      sumApproval nm rows =
        (if node.type = "approval_gate" then sumLat rows else 0) := by
  intro rows
  induction rows with
  | nil =>
      intro _
      by_cases h : node.type = "approval_gate"
      · rw [if_pos h, if_pos h]
        exact ⟨rfl, rfl⟩
      · rw [if_neg h, if_neg h]
        exact ⟨rfl, rfl⟩
  | cons r rest ih =>
      intro hall
      have hr : r.node_id = current := hall r (List.mem_cons_self r rest)
      obtain ⟨h1, h2⟩ := ih (fun x hx => hall x (List.mem_cons_of_mem r hx))
      have hcls : isApprovalRow nm r = decide (node.type = "approval_gate") := by
        unfold isApprovalRow
        rw [hr, hlook]
      rw [sumSystem_cons, sumApproval_cons, sumLat_cons, hcls]
      by_cases h : node.type = "approval_gate"
      · rw [if_pos h] at h1
        rw [if_pos h] at h2
        rw [decide_eq_true h, if_pos h, if_pos h]
        constructor
        · show (0 : Int) + sumSystem nm rest = 0
          omega
        · show r.latency_ms + sumApproval nm rest = r.latency_ms + sumLat rest
          omega
      · rw [if_neg h] at h1
        rw [if_neg h] at h2
        rw [decide_eq_false h, if_neg h, if_neg h]
        constructor
        · show r.latency_ms + sumSystem nm rest = r.latency_ms + sumLat rest
          omega
        · show (0 : Int) + sumApproval nm rest = 0
          omega

theorem executeResolved_spec (reg : Registry) (tn nid : String) (ti : Value)
    (st1 : EngSt) (result : ToolResult) (latency : Int) (st2 : EngSt)
    (hreg : ∀ name f, regLookup reg name = some f →
      ∀ inp c, (f inp c).success = true)
    (heq : executeResolved reg tn nid ti st1 = ((result, latency), st2)) :
    ∃ row, st2.db.rows = st1.db.rows ++ [row] ∧
      row.node_id = nid ∧ row.run_id = st1.ctx.run_id ∧
      row.latency_ms = latency ∧ (result.success = false → latency = 0) ∧
      st2.ctx.run_id = st1.ctx.run_id ∧ st2.summary = st1.summary := by
  unfold executeResolved at heq
  cases hr : regLookup reg tn with
  | none =>
      rw [hr] at heq
      simp only [Prod.mk.injEq] at heq
      obtain ⟨⟨hres, hlat⟩, hst⟩ := heq
      subst hres hlat hst
      exact ⟨_, rfl, rfl, rfl, rfl, fun _ => rfl, rfl, rfl⟩
  | some f =>
      rw [hr] at heq
      simp only [Prod.mk.injEq] at heq
      obtain ⟨⟨hres, hlat⟩, hst⟩ := heq
      subst hres hlat hst
      refine ⟨_, rfl, rfl, rfl, rfl, ?_, rfl, rfl⟩
      intro hf
      rw [hreg tn f hr ti st1.ctx] at hf
      cases hf

theorem execute_tool_node_spec (reg : Registry) (policy : Policy)
    (node : Node) (st1 : EngSt) (result : ToolResult) (latency : Int)
    (st2 : EngSt)
    (hreg : ∀ name f, regLookup reg name = some f →
      ∀ inp c, (f inp c).success = true)
    (heq : execute_tool_node reg policy node st1 = .ok ((result, latency), st2)) :
    ∃ row, st2.db.rows = st1.db.rows ++ [row] ∧
      row.node_id = node.id ∧ row.run_id = st1.ctx.run_id ∧
      row.latency_ms = latency ∧ (result.success = false → latency = 0) ∧
      st2.ctx.run_id = st1.ctx.run_id ∧ st2.summary = st1.summary := by
  unfold execute_tool_node at heq
  split at heq
  · cases heq
  · rename_i tn htool
    split at heq
    · injection heq with heq
      exact executeResolved_spec reg tn node.id (toolInputsOf st1 node.id)
        st1 result latency st2 hreg heq
    · split at heq
      · rename_i d t reasons hpd
        injection heq with heq
        simp only [Prod.mk.injEq] at heq
        obtain ⟨⟨hres, hlat⟩, hst⟩ := heq
        subst hres hlat hst
        exact ⟨_, rfl, rfl, rfl, rfl, fun _ => rfl, rfl, rfl⟩
      · injection heq with heq
        exact executeResolved_spec reg tn node.id (toolInputsOf st1 node.id)
          st1 result latency st2 hreg heq

theorem runStep_times (policy : Policy)
    (resolver : String → Node → Ctx → Value) (reg : Registry) (node : Node)
    (current : String) (st : EngSt) (out : Except EngErr Bool) (st2 : EngSt)
    (hid : node.id = current)
    (hreg : ∀ name f, regLookup reg name = some f →
      ∀ inp c, (f inp c).success = true)
    (h : runStep policy resolver reg node current st = (out, st2)) :
    ∃ newRows, st2.db.rows = st.db.rows ++ newRows ∧
      (∀ r ∈ newRows, r.node_id = current ∧ r.run_id = st.ctx.run_id) ∧
      st2.ctx.run_id = st.ctx.run_id ∧
      st2.summary.system_time_ms = st.summary.system_time_ms +
        (if node.type = "approval_gate" then 0 else sumLat newRows) ∧
      st2.summary.human_wait_time_ms = st.summary.human_wait_time_ms +
        (if node.type = "approval_gate" then sumLat newRows else 0) := by
  unfold runStep at h
  split at h
  · rename_i hty
    simp only [Prod.mk.injEq] at h
    obtain ⟨hout, hst⟩ := h
    subst hst
    have hne : ¬ node.type = "approval_gate" := by
      rw [hty]
      decide
    refine ⟨[writtenRow st.db ⟨st.tss.headD "", st.ctx.run_id, st.ctx.saw_id,
      current, "", "allow", 0, none⟩], rfl, ?_, rfl, ?_, ?_⟩
    · intro r hr
      rw [List.mem_singleton] at hr
      subst hr
      exact ⟨rfl, rfl⟩
    · rw [if_neg hne]
      show st.summary.system_time_ms =
        st.summary.system_time_ms + ((0 : Int) + 0)
      omega
    · rw [if_neg hne]
      show st.summary.human_wait_time_ms =
        st.summary.human_wait_time_ms + (0 : Int)
      omega
  · split at h
    · rename_i hty1 hty
      simp only [Prod.mk.injEq] at h
      obtain ⟨hout, hst⟩ := h
      subst hst
      have hne : ¬ node.type = "approval_gate" := by
        rw [hty]
        decide
      refine ⟨[writtenRow st.db ⟨st.tss.headD "", st.ctx.run_id,
        st.ctx.saw_id, current, "", "allow", 0, none⟩], rfl, ?_, rfl, ?_, ?_⟩
      · intro r hr
        rw [List.mem_singleton] at hr
        subst hr
        exact ⟨rfl, rfl⟩
      · rw [if_neg hne]
        show st.summary.system_time_ms =
          st.summary.system_time_ms + ((0 : Int) + 0)
        omega
      · rw [if_neg hne]
        show st.summary.human_wait_time_ms =
          st.summary.human_wait_time_ms + (0 : Int)
        omega
    · split at h
      · rename_i hty1 hty2 hty
        split at h
        · rename_i hgate
          simp only [Prod.mk.injEq] at h
          obtain ⟨hout, hst⟩ := h
          subst hst
          refine ⟨[writtenRow st.db ⟨st.tss.headD "", st.ctx.run_id,
            st.ctx.saw_id, current, "", "allow",
            (handle_approval_gate st.ctx).2.1,
            (handle_approval_gate st.ctx).2.2⟩], rfl, ?_, rfl, ?_, ?_⟩
          · intro r hr
            rw [List.mem_singleton] at hr
            subst hr
            exact ⟨rfl, rfl⟩
          · rw [if_pos hty]
            show st.summary.system_time_ms =
              st.summary.system_time_ms + (0 : Int)
            omega
          · rw [if_pos hty]
            show st.summary.human_wait_time_ms +
                (handle_approval_gate st.ctx).2.1 =
              st.summary.human_wait_time_ms +
                ((handle_approval_gate st.ctx).2.1 + 0)
            omega
        · rename_i hgate
          simp only [Prod.mk.injEq] at h
          obtain ⟨hout, hst⟩ := h
          subst hst
          refine ⟨[writtenRow st.db ⟨st.tss.headD "", st.ctx.run_id,
            st.ctx.saw_id, current, "", "deny",
            (handle_approval_gate st.ctx).2.1,
            (handle_approval_gate st.ctx).2.2⟩], rfl, ?_, rfl, ?_, ?_⟩
          · intro r hr
            rw [List.mem_singleton] at hr
            subst hr
            exact ⟨rfl, rfl⟩
          · rw [if_pos hty]
            show st.summary.system_time_ms =
              st.summary.system_time_ms + (0 : Int)
            omega
          · rw [if_pos hty]
            show st.summary.human_wait_time_ms +
                (handle_approval_gate st.ctx).2.1 =
              st.summary.human_wait_time_ms +
                ((handle_approval_gate st.ctx).2.1 + 0)
            omega
      · split at h
        · rename_i hty1 hty2 hty3 hty
          have hne : ¬ node.type = "approval_gate" := by
            rw [hty]
            decide
          split at h
          · rename_i e heq
            simp only [Prod.mk.injEq] at h
            obtain ⟨hout, hst⟩ := h
            subst hst
            refine ⟨[], (List.append_nil _).symm, ?_, rfl, ?_, ?_⟩
            · intro r hr
              exact absurd hr (List.not_mem_nil r)
            · rw [if_neg hne]
              show st.summary.system_time_ms =
                st.summary.system_time_ms + (0 : Int)
              omega
            · rw [if_neg hne]
              show st.summary.human_wait_time_ms =
                st.summary.human_wait_time_ms + (0 : Int)
              omega
          · rename_i result latency st2x heq
            obtain ⟨row, hrows, hnid, hrid, hlat, hfl, hctx, hsum⟩ :=
              execute_tool_node_spec reg policy node
                (stashInputs resolver current node st) result latency st2x
                hreg heq
            have hsys2 : st2x.summary.system_time_ms =
                st.summary.system_time_ms := by
              rw [hsum]
              rfl
            have hhum2 : st2x.summary.human_wait_time_ms =
                st.summary.human_wait_time_ms := by
              rw [hsum]
              rfl
            split at h
            · rename_i hs
              simp only [Prod.mk.injEq] at h
              obtain ⟨hout, hst⟩ := h
              subst hst
              refine ⟨[row], hrows, ?_, hctx, ?_, ?_⟩
              · intro r hr
                rw [List.mem_singleton] at hr
                subst hr
                refine ⟨?_, hrid⟩
                rw [hnid, hid]
              · rw [if_neg hne]
                show st2x.summary.system_time_ms + latency =
                  st.summary.system_time_ms + sumLat [row]
                rw [sumLat_cons, sumLat_nil, hlat, hsys2]
                omega
              · rw [if_neg hne]
                show st2x.summary.human_wait_time_ms =
                  st.summary.human_wait_time_ms + (0 : Int)
                rw [hhum2]
                omega
            · rename_i hs
              have hsf : result.success = false := by
                cases hsucc : result.success with
                | false => rfl
                | true => exact absurd hsucc hs
              have hl0 := hfl hsf
              simp only [Prod.mk.injEq] at h
              obtain ⟨hout, hst⟩ := h
              subst hst
              refine ⟨[row], hrows, ?_, hctx, ?_, ?_⟩
              · intro r hr
                rw [List.mem_singleton] at hr
                subst hr
                refine ⟨?_, hrid⟩
                rw [hnid, hid]
              · rw [if_neg hne]
                show st2x.summary.system_time_ms =
                  st.summary.system_time_ms + sumLat [row]
                rw [sumLat_cons, sumLat_nil, hlat, hl0, hsys2]
                omega
              · rw [if_neg hne]
                show st2x.summary.human_wait_time_ms =
                  st.summary.human_wait_time_ms + (0 : Int)
                rw [hhum2]
                omega
        · rename_i hty1 hty2 hty3 hty4
          simp only [Prod.mk.injEq] at h
          obtain ⟨hout, hst⟩ := h
          subst hst
          refine ⟨[], (List.append_nil _).symm, ?_, rfl, ?_, ?_⟩
          · intro r hr
            exact absurd hr (List.not_mem_nil r)
          · rw [if_neg hty3]
            show st.summary.system_time_ms =
              st.summary.system_time_ms + (0 : Int)
            omega
          · rw [if_neg hty3]
            show st.summary.human_wait_time_ms =
              st.summary.human_wait_time_ms + (0 : Int)
            omega

theorem runLoop_times (nm : List Node) (adj : List (String × String))
    (policy : Policy) (resolver : String → Node → Ctx → Value)
    (reg : Registry)
    (hreg : ∀ name f, regLookup reg name = some f →
      ∀ inp c, (f inp c).success = true) :
    ∀ (fuel : Nat) (current : String) (st : EngSt)
      (out : Except EngErr Unit) (st2 : EngSt),
      runLoop nm adj policy resolver reg fuel current st = (out, st2) →
      ∃ newRows, st2.db.rows = st.db.rows ++ newRows ∧
        (∀ r ∈ newRows, r.run_id = st.ctx.run_id) ∧
        st2.ctx.run_id = st.ctx.run_id ∧
        st2.summary.system_time_ms =
          st.summary.system_time_ms + sumSystem nm newRows ∧
        st2.summary.human_wait_time_ms =
          st.summary.human_wait_time_ms + sumApproval nm newRows := by
  intro fuel
  induction fuel with
  | zero =>
      intro current st out st2 h
      rw [runLoop] at h
      simp only [Prod.mk.injEq] at h
      obtain ⟨hout, hst⟩ := h
      subst hst
      refine ⟨[], (List.append_nil _).symm, ?_, rfl, ?_, ?_⟩
      · intro r hr
        exact absurd hr (List.not_mem_nil r)
      · show st.summary.system_time_ms =
          st.summary.system_time_ms + (0 : Int)
        omega
      · show st.summary.human_wait_time_ms =
          st.summary.human_wait_time_ms + (0 : Int)
        omega
  | succ fuel ih =>
      intro current st out st2 h
      rw [runLoop] at h
      split at h
      · simp only [Prod.mk.injEq] at h
        obtain ⟨hout, hst⟩ := h
        subst hst
        refine ⟨[], (List.append_nil _).symm, ?_, rfl, ?_, ?_⟩
        · intro r hr
          exact absurd hr (List.not_mem_nil r)
        · show st.summary.system_time_ms =
            st.summary.system_time_ms + (0 : Int)
          omega
        · show st.summary.human_wait_time_ms =
            st.summary.human_wait_time_ms + (0 : Int)
          omega
      · rename_i node hlook
        have hid := lookupNode_id hlook
        split at h
        · rename_i e stm heq
          simp only [Prod.mk.injEq] at h
          obtain ⟨hout, hst⟩ := h
          subst hst
          obtain ⟨rows1, hrows, hall, hctx, hsys, hhum⟩ :=
            runStep_times policy resolver reg node current st (.error e) stm
              hid hreg heq
          obtain ⟨h1, h2⟩ := sums_of_uniform nm node current hlook rows1
            (fun r hr => (hall r hr).1)
          refine ⟨rows1, hrows, ?_, hctx, ?_, ?_⟩
          · intro r hr
            exact (hall r hr).2
          · rw [hsys, h1]
          · rw [hhum, h2]
        · rename_i stm heq
          simp only [Prod.mk.injEq] at h
          obtain ⟨hout, hst⟩ := h
          subst hst
          obtain ⟨rows1, hrows, hall, hctx, hsys, hhum⟩ :=
            runStep_times policy resolver reg node current st (.ok false) stm
              hid hreg heq
          obtain ⟨h1, h2⟩ := sums_of_uniform nm node current hlook rows1
            (fun r hr => (hall r hr).1)
          refine ⟨rows1, hrows, ?_, hctx, ?_, ?_⟩
          · intro r hr
            exact (hall r hr).2
          · rw [hsys, h1]
          · rw [hhum, h2]
        · rename_i stm heq
          obtain ⟨rows1, hrows, hall, hctx, hsys, hhum⟩ :=
            runStep_times policy resolver reg node current st (.ok true) stm
              hid hreg heq
          obtain ⟨h1, h2⟩ := sums_of_uniform nm node current hlook rows1
            (fun r hr => (hall r hr).1)
          split at h
          · split at h
            · simp only [Prod.mk.injEq] at h
              obtain ⟨hout, hst⟩ := h
              subst hst
              refine ⟨rows1, hrows, ?_, hctx, ?_, ?_⟩
              · intro r hr
                exact (hall r hr).2
              · rw [hsys, h1]
              · rw [hhum, h2]
            · simp only [Prod.mk.injEq] at h
              obtain ⟨hout, hst⟩ := h
              subst hst
              refine ⟨rows1, hrows, ?_, hctx, ?_, ?_⟩
              · intro r hr
                exact (hall r hr).2
              · show stm.summary.system_time_ms =
                  st.summary.system_time_ms + sumSystem nm rows1
                rw [hsys, h1]
              · show stm.summary.human_wait_time_ms =
                  st.summary.human_wait_time_ms + sumApproval nm rows1
                rw [hhum, h2]
          · rename_i nxt hadj
            obtain ⟨rows2, hrows2, hall2, hctx2, hsys2, hhum2⟩ :=
              ih nxt stm out st2 h
            refine ⟨rows1 ++ rows2, ?_, ?_, ?_, ?_, ?_⟩
            · rw [hrows2, hrows, List.append_assoc]
            · intro r hr
              rcases List.mem_append.mp hr with hr | hr
              · exact (hall r hr).2
              · rw [hall2 r hr, hctx]
            · rw [hctx2, hctx]
            · rw [hsys2, hsys, sumSystem_append, ← h1]
              omega
            · rw [hhum2, hhum, sumApproval_append, ← h2]
              omega

theorem filterRun_append (a b : List LogRow) (r : String) :
    filterRun (a ++ b) r = filterRun a r ++ filterRun b r := by
  simp [filterRun, List.filter_append]

theorem filterRun_all (rows : List LogRow) (rid : String)
    (hall : ∀ row ∈ rows, row.run_id = rid) : filterRun rows rid = rows := by
  unfold filterRun
  apply List.filter_eq_self.mpr
  intro a ha
  simpa using hall a ha

/-- Claim C7 (amended): for a run over a fresh run_id in which every
registry tool reports success, the summary run_saw returns satisfies the
timing contract: system_time_ms is the sum of latency_ms over the non-
approval ledger rows of the run, human_wait_time_ms is the sum over the
approval-gate rows, and total_time_ms is their sum (the buckets are
classified by node type, so they are disjoint and additive).  Without the
success assumption the contract fails: a failed tool logs its measured
latency but run_saw breaks before adding it to system_time_ms. -/
theorem c7_time_sums (spec : SawSpec) (ctx : Ctx) (db : Db)
    (resolver : String → Node → Ctx → Value) (reg : Registry)
    (tss : List String) (lats : List Int) (summary : RunSummary) (db2 : Db)
    (hreg : ∀ name f, regLookup reg name = some f →
      ∀ inp c, (f inp c).success = true)
    (hempty : filterRun db.rows ctx.run_id = [])
    (hrun : run_saw spec ctx db resolver reg tss lats = (.ok summary, db2)) :
    summary.system_time_ms =
      sumSystem (nodeMapOf spec.nodes) (filterRun db2.rows ctx.run_id) ∧
    summary.human_wait_time_ms =
      sumApproval (nodeMapOf spec.nodes) (filterRun db2.rows ctx.run_id) ∧
    summary.total_time_ms =
      summary.system_time_ms + summary.human_wait_time_ms := by
  unfold run_saw at hrun
  split at hrun
  · simp only [Prod.mk.injEq] at hrun
    exact Except.noConfusion hrun.1
  · rename_i adj hadjeq
    split at hrun
    · simp only [Prod.mk.injEq] at hrun
      exact Except.noConfusion hrun.1
    · rename_i start hstart
      split at hrun
      · simp only [Prod.mk.injEq] at hrun
        exact Except.noConfusion hrun.1
      · rename_i u stm heq
        simp only [Prod.mk.injEq, Except.ok.injEq] at hrun
        obtain ⟨hok, hdb⟩ := hrun
        subst hdb
        subst hok
        obtain ⟨rows, hrows, hall, hctx, hsys, hhum⟩ :=
          runLoop_times (nodeMapOf spec.nodes) adj (policy_from_spec spec)
            resolver reg hreg (spec.edges.length + 1) start
            (initialEngSt ctx db tss lats) (.ok u) stm heq
        have hfilt : filterRun stm.db.rows ctx.run_id = rows := by
          rw [hrows]
          show filterRun (db.rows ++ rows) ctx.run_id = rows
          rw [filterRun_append, hempty]
          show filterRun rows ctx.run_id = rows
          apply filterRun_all
          intro r hr
          exact hall r hr
        refine ⟨?_, ?_, rfl⟩
        · show stm.summary.system_time_ms =
            sumSystem (nodeMapOf spec.nodes) (filterRun stm.db.rows ctx.run_id)
          rw [hfilt, hsys]
          show (0 : Int) + sumSystem (nodeMapOf spec.nodes) rows =
            sumSystem (nodeMapOf spec.nodes) rows
          omega
        · show stm.summary.human_wait_time_ms =
            sumApproval (nodeMapOf spec.nodes) (filterRun stm.db.rows ctx.run_id)
          rw [hfilt, hhum]
          show (0 : Int) + sumApproval (nodeMapOf spec.nodes) rows =
            sumApproval (nodeMapOf spec.nodes) rows
          omega

def c7Bundle : PolicyBundle :=
  ⟨"p_c7", "medium", [], [], ⟨false, [], false, false⟩, []⟩

def c7Spec : SawSpec :=
  ⟨"saw_c7",
   [⟨"n_start", "start", none, false⟩,
    ⟨"n_approval", "approval_gate", none, false⟩,
    ⟨"n_end", "end", none, false⟩],
   [⟨"n_start", "n_approval"⟩, ⟨"n_approval", "n_end"⟩],
   c7Bundle⟩

def c7Ctx : Ctx :=
  ⟨"r_c7", "saw_c7", "p_c7", "t0", "op", "boss",
   [("_approval_granted", .bool true), ("_approval_wait_ms", .num 120000)]⟩

def c7Tss : List String :=
  ["2025-01-01T00:00:01", "2025-01-01T00:00:02", "2025-01-01T00:00:03"]

theorem c7_witness :
    ∃ summary db2,
      run_saw c7Spec c7Ctx emptyDb (fun _ _ _ => .dict []) [] c7Tss [] =
        (.ok summary, db2) ∧
      (summary.system_time_ms =
        sumSystem (nodeMapOf c7Spec.nodes) (filterRun db2.rows c7Ctx.run_id) ∧
       summary.human_wait_time_ms =
        sumApproval (nodeMapOf c7Spec.nodes) (filterRun db2.rows c7Ctx.run_id) ∧
       summary.total_time_ms =
        summary.system_time_ms + summary.human_wait_time_ms) :=
  ⟨_, _, rfl, c7_time_sums c7Spec c7Ctx emptyDb (fun _ _ _ => .dict []) []
    c7Tss [] _ _ (fun name f h => nomatch h) rfl rfl⟩

def c7FailTool : Value → Ctx → ToolResult :=
  fun _ _ => ⟨"tool_fail", false, .dict [], some "boom"⟩

def c7FailReg : Registry := [("tool_fail", c7FailTool)]

def c7FailBundle : PolicyBundle :=
  ⟨"p_c7f", "medium", ["tool_fail"], [], ⟨false, [], false, false⟩, []⟩

def c7FailSpec : SawSpec :=
  ⟨"saw_c7f",
   [⟨"n_start", "start", none, false⟩,
    ⟨"n_tool", "tool_call", some "tool_fail", false⟩,
    ⟨"n_end", "end", none, false⟩],
   [⟨"n_start", "n_tool"⟩, ⟨"n_tool", "n_end"⟩],
   c7FailBundle⟩

def c7FailCtx : Ctx := ⟨"r_c7f", "saw_c7f", "p_c7f", "t0", "op", "boss", []⟩

def c7FailTss : List String := ["2025-02-01T00:00:01", "2025-02-01T00:00:02"]

/-- Counterexample to C7 as stated: a run whose tool fails has its measured
latency in the ledger (the non-approval rows sum to 50000 hundredths) while
run_saw breaks before adding it, leaving system_time_ms at 0. -/
theorem c7_counterexample :
    ∃ summary db2,
      run_saw c7FailSpec c7FailCtx emptyDb (fun _ _ _ => .dict []) c7FailReg
          c7FailTss [50000] = (.ok summary, db2) ∧
      summary.status = "denied" ∧
      summary.system_time_ms = 0 ∧
      sumSystem (nodeMapOf c7FailSpec.nodes) (filterRun db2.rows "r_c7f") =
        50000 ∧
      sumApproval (nodeMapOf c7FailSpec.nodes) (filterRun db2.rows "r_c7f") =
        0 :=
  ⟨_, _, rfl, rfl, rfl, by decide, by decide⟩
